/-
Verification of the Domino Blocks puzzle core (src/app.js).

The 4x4 board is covered by eight 1x2 dominoes whose halves carry pip
values in [1,6].  We embed the tiling generator, the block-target
calculator and the placement/undo state machine as executable Lean
definitions and prove the specified properties about them.

Randomness (Math.random) is modelled by explicit choice streams: a
`List Bool` feeding the orientation shuffle (one Bool per `shuffleArray`
of the two directions) and a `List Nat` feeding `randInt` (one entry per
generated pip).  Exhausted streams fall back to a default, so every
concrete run of the JavaScript program corresponds to some pair of
streams, and universally quantified theorems cover all runs.
-/
import Mathlib

set_option maxHeartbeats 1000000

/-! ## Tiles and the grid -/

/-- One half of a solution tile: `{r, c, value}` as pushed by `tryPlace`. -/
structure TileCell where
  r : Nat
  c : Nat
  value : Nat
deriving DecidableEq, Repr

/-- A solution tile `{cells:[c0, c1]}`: the two-element `cells` array of
`generateRandomTilingWithValues`. -/
structure Tile where
  c0 : TileCell
  c1 : TileCell
deriving DecidableEq, Repr

/-- `SIZE = 4`. -/
def SIZE : Nat := 4

/-- The sixteen board coordinates in row-major order, as traversed by the
`for(r) for(c)` loops of the source. -/
def gridList : List (Nat × Nat) :=
  (List.range SIZE).flatMap (fun r => (List.range SIZE).map (fun c => (r, c)))

/-- The two cells of a tile, in order. -/
def tileCells (t : Tile) : List TileCell := [t.c0, t.c1]

/-- All cells of a list of tiles (the `tiles.forEach(cells.forEach)` order). -/
def allCells (tiles : List Tile) : List TileCell := tiles.flatMap tileCells

/-- The coordinates covered by a list of tiles. -/
def tilesCoords (tiles : List Tile) : List (Nat × Nat) :=
  (allCells tiles).map (fun cell => (cell.r, cell.c))

/-- Well-formedness of a single generated tile: the second cell is the right
or down neighbour of the first, both are on the 4x4 board, and both pip
values lie in [1,6]. -/
def TileOK (t : Tile) : Prop :=
  ((t.c1.r = t.c0.r ∧ t.c1.c = t.c0.c + 1) ∨ (t.c1.r = t.c0.r + 1 ∧ t.c1.c = t.c0.c)) ∧
    t.c0.r < SIZE ∧ t.c0.c < SIZE ∧ t.c1.r < SIZE ∧ t.c1.c < SIZE ∧
    1 ≤ t.c0.value ∧ t.c0.value ≤ 6 ∧ 1 ≤ t.c1.value ∧ t.c1.value ≤ 6

instance (t : Tile) : Decidable (TileOK t) := by
  unfold TileOK; infer_instance

/-! ## The tiling generator (`generateRandomTilingWithValues`) -/

/-- `randInt(min,max)` =  `Math.floor(Math.random()*(max-min+1))+min`; the
floor of `Math.random()*(max-min+1)` is a uniform choice in
`[0, max-min]`, modelled by `k % (max-min+1)` for a stream value `k`. -/
def randInt (lo hi k : Nat) : Nat := k % (hi - lo + 1) + lo

/-- `findFirstEmpty`: first coordinate in row-major order not yet covered. -/
def findFirstEmpty (cells : List (Nat × Nat)) : Option (Nat × Nat) :=
  gridList.find? (fun p => ! cells.contains p)

/-- `shuffleArray(dirs)` on the two-element direction array yields one of the
two orders, selected by one Bool of the direction stream. -/
def dirOrder (b : Bool) : (Nat × Nat) × (Nat × Nat) :=
  if b then ((0, 1), (1, 0)) else ((1, 0), (0, 1))

/-- The in-bounds-and-unoccupied test for the neighbour in direction `d` of
`(r, c)` (the `nr>=0 && nr<SIZE && nc>=0 && nc<SIZE && !cells[nr][nc]`
guard; `nr, nc ≥ 0` is automatic for naturals). -/
def dirOk (cells : List (Nat × Nat)) (r c : Nat) (d : Nat × Nat) : Bool :=
  decide (r + d.1 < SIZE) && decide (c + d.2 < SIZE) && ! cells.contains (r + d.1, c + d.2)

/-- The occupied-set after tentatively placing a domino at `(r,c)` and its
`d`-neighbour. -/
def nextCells (cells : List (Nat × Nat)) (r c : Nat) (d : Nat × Nat) : List (Nat × Nat) :=
  (r, c) :: (r + d.1, c + d.2) :: cells

/-- The tile pushed for `(r,c)` and its `d`-neighbour, with the two pips
drawn from the front of the pip stream. -/
def mkTile (r c : Nat) (d : Nat × Nat) (pips : List Nat) : Tile :=
  ⟨⟨r, c, randInt 1 6 (pips.headD 0)⟩,
   ⟨r + d.1, c + d.2, randInt 1 6 (pips.tail.headD 0)⟩⟩

/-- `tryPlace`: the recursive backtracking search.  Returns the tiles on
success together with the unconsumed randomness streams.  The recursion
depth is bounded by the `fuel` argument; depth 16 is ample for the 4x4
board (a successful branch nests at most 9 calls). -/
def tryPlace : Nat → List (Nat × Nat) → List Tile → List Bool → List Nat →
    Option (List Tile) × List Bool × List Nat
  | 0, _, _, dirs, pips => (none, dirs, pips)
  | fuel + 1, cells, tiles, dirs, pips =>
    match findFirstEmpty cells with
    | none => (some tiles, dirs, pips)
    | some (r, c) =>
      let ds := dirOrder (dirs.headD true)
      let dirs1 := dirs.tail
      let first :=
        if dirOk cells r c ds.1 then
          tryPlace fuel (nextCells cells r c ds.1) (tiles ++ [mkTile r c ds.1 pips])
            dirs1 pips.tail.tail
        else (none, dirs1, pips)
      match first with
      | (some res, dirs2, pips2) => (some res, dirs2, pips2)
      | (none, dirs2, pips2) =>
        if dirOk cells r c ds.2 then
          tryPlace fuel (nextCells cells r c ds.2) (tiles ++ [mkTile r c ds.2 pips2])
            dirs2 pips2.tail.tail
        else (none, dirs2, pips2)

/-- Orientation-independent success predicate of the same search: `tryPlace`
succeeds from a given occupied-set iff `canTile` holds for it (proved
below), which lets success be decided once and for all. -/
def canTile : Nat → List (Nat × Nat) → Bool
  | 0, _ => false
  | fuel + 1, cells =>
    match findFirstEmpty cells with
    | none => true
    | some (r, c) =>
      (dirOk cells r c (0, 1) && canTile fuel (nextCells cells r c (0, 1))) ||
      (dirOk cells r c (1, 0) && canTile fuel (nextCells cells r c (1, 0)))

/-- The `while(true)` retry loop of `generateRandomTilingWithValues`; the
counter starts at 201 remaining attempts (the JS loop throws once
`attempts > 200`). -/
def genLoop : Nat → List Bool → List Nat → Except String (List Tile)
  | 0, _, _ => Except.error "Failed to generate tiling"
  | n + 1, dirs, pips =>
    match tryPlace 16 [] [] dirs pips with
    | (some tiles, _, _) => Except.ok tiles
    | (none, dirs2, pips2) => genLoop n dirs2 pips2

/-- `generateRandomTilingWithValues`, parametrized by the two randomness
streams. -/
def generateRandomTilingWithValues (dirs : List Bool) (pips : List Nat) :
    Except String (List Tile) :=
  genLoop 201 dirs pips

/-! ## The target calculator (`computeBlockTargetsFromTiles`) -/

/-- The four fixed 2x2 block anchors `BLOCKS`. -/
def BLOCKS : List (Nat × Nat) := [(0, 0), (0, 2), (2, 0), (2, 2)]

/-- Writing one value into the 4x4 number board (`b[cell.r][cell.c] = cell.value`). -/
def writeNum (b : Nat → Nat → Option Nat) (r c v : Nat) : Nat → Nat → Option Nat :=
  fun r' c' => if r' = r ∧ c' = c then some v else b r' c'

/-- The number board rebuilt from the tiles by the nested `forEach` loops;
later writes overwrite earlier ones, and unwritten cells stay `null`. -/
def numBoard (tiles : List Tile) : Nat → Nat → Option Nat :=
  (allCells tiles).foldl (fun b cell => writeNum b cell.r cell.c cell.value)
    (fun _ _ => none)

/-- The unrolled `for(r=bl.r..bl.r+2) for(c=bl.c..bl.c+2) sum += g r c` loop
over one 2x2 block, in the source's accumulation order. -/
def block2x2Sum (g : Nat → Nat → Nat) (br bc : Nat) : Nat :=
  g br bc + g br (bc + 1) + g (br + 1) bc + g (br + 1) (bc + 1)

/-- JavaScript's `sum += b[r][c]` coerces an unwritten `null` entry to 0. -/
def numAt (tiles : List Tile) (r c : Nat) : Nat := (numBoard tiles r c).getD 0

/-- `computeBlockTargetsFromTiles`: the four block sums of the rebuilt board. -/
def computeBlockTargetsFromTiles (tiles : List Tile) : List Nat :=
  BLOCKS.map (fun bl => block2x2Sum (numAt tiles) bl.1 bl.2)

/-- The sum of all sixteen pip values of a tiling. -/
def pipSum (tiles : List Tile) : Nat := ((allCells tiles).map TileCell.value).sum

/-! ## The puzzle state machine -/

/-- An occupied board entry `{value, dominoId}`. -/
structure BoardCell where
  value : Nat
  dominoId : Int
deriving DecidableEq, Repr

/-- A pool entry `{id, a, b}`. -/
structure Domino where
  id : Int
  a : Nat
  b : Nat
deriving DecidableEq, Repr

/-- A placement cell `{r, c, value}`. -/
structure PCell where
  r : Nat
  c : Nat
  value : Nat
deriving DecidableEq, Repr

/-- A player placement `{id, cells}`. -/
structure Placement where
  id : Int
  cells : List PCell
deriving DecidableEq, Repr

/-- A history entry `{action:'place', dominoId, cells}` (only place actions
are ever pushed). -/
structure HistEntry where
  dominoId : Int
  cells : List PCell
deriving DecidableEq, Repr

/-- The status messages produced by `setMessage`, one constructor per call
site in the source. -/
inductive Msg where
  | intro
  | dominoSelected
  | selectFirst
  | cellOccupied
  | secondCell
  | notAdjacent
  | dominoNotFound
  | placedCount (n : Nat)
  | solved
  | wrongBlocks (l : List Nat)
  | undid
  | nothingToUndo
deriving DecidableEq, Repr

/-- The mutable module-level state of the source. -/
structure GameState where
  solutionTiles : List Tile
  pool : List Domino
  placed : List Placement
  selectedDominoId : Option Int
  selectionClicks : List (Nat × Nat)
  board : Nat → Nat → Option BoardCell
  history : List HistEntry
  message : Msg

/-- JavaScript truthiness of `selectedDominoId` (`null` or a number): the
guard `if(!selectedDominoId)` fires for `null` and for the number 0. -/
def jsFalsy (v : Option Int) : Bool :=
  match v with
  | none => true
  | some n => n == 0

/-- `areAdjacent`: Manhattan distance is exactly 1. -/
def areAdjacent (a b : Nat × Nat) : Bool :=
  (((a.1 : Int) - b.1).natAbs + ((a.2 : Int) - b.2).natAbs) == 1

/-- Writing an occupied entry into the player board. -/
def writeCell (bd : Nat → Nat → Option BoardCell) (r c : Nat) (x : BoardCell) :
    Nat → Nat → Option BoardCell :=
  fun r' c' => if r' = r ∧ c' = c then some x else bd r' c'

/-- Clearing one player-board cell (`board[cell.r][cell.c] = null`). -/
def clearCell (bd : Nat → Nat → Option BoardCell) (r c : Nat) :
    Nat → Nat → Option BoardCell :=
  fun r' c' => if r' = r ∧ c' = c then none else bd r' c'

/-- `solutionTiles[i]` for a JavaScript number index: out-of-range access
yields `undefined` (then reading `.cells` of it throws, which the
state-machine model surfaces as `none` in `undo`). -/
def intGet (l : List Tile) (i : Int) : Option Tile :=
  if i < 0 then none else l.get? i.toNat

/-- The pool built from the solution tiles,
`solutionTiles.map((t,i)=>({id:i, a:t.cells[0].value, b:t.cells[1].value}))`. -/
def poolOf (tiles : List Tile) : List Domino :=
  tiles.enum.map (fun e => ⟨(e.1 : Int), e.2.c0.value, e.2.c1.value⟩)

/-- The state right after `initPuzzle()` ran with solution `tiles` and
(shuffled) pool `pool0`. -/
def initState (tiles : List Tile) (pool0 : List Domino) : GameState :=
  { solutionTiles := tiles
    pool := pool0
    placed := []
    selectedDominoId := none
    selectionClicks := []
    board := fun _ _ => none
    history := []
    message := Msg.intro }

/-- `onSelectDomino(id)`. -/
def onSelectDomino (s : GameState) (id : Int) : GameState :=
  if (s.placed.find? (fun p => p.id == id)).isSome then s
  else { s with selectedDominoId := some id, selectionClicks := [],
                message := Msg.dominoSelected }

/-- The player's four block sums (`BLOCKS.map` inside `checkCompletion`;
`board[r][c].value` is only read on a full board, where no entry is null). -/
def cellValue (bd : Nat → Nat → Option BoardCell) (r c : Nat) : Nat :=
  match bd r c with
  | some x => x.value
  | none => 0

/-- The `sums` list of `checkCompletion`. -/
def playerBlockSums (bd : Nat → Nat → Option BoardCell) : List Nat :=
  BLOCKS.map (fun bl => block2x2Sum (cellValue bd) bl.1 bl.2)

/-- `checkCompletion()`: no-op unless the board is full; otherwise compares
the player's block sums with the solution targets and reports either
success or the 1-indexed mismatching blocks. -/
def checkCompletion (s : GameState) : GameState :=
  if gridList.any (fun p => (s.board p.1 p.2).isNone) then s
  else
    let sums := playerBlockSums s.board
    let correctTargets := computeBlockTargetsFromTiles s.solutionTiles
    let wrongIdx := (List.range sums.length).filter
      (fun i => sums.getD i 0 != correctTargets.getD i 0)
    if wrongIdx.isEmpty then { s with message := Msg.solved }
    else { s with message := Msg.wrongBlocks (wrongIdx.map (· + 1)) }

/-- `onCellClick` for the cell `(r, c)`. -/
def onCellClick (s : GameState) (r c : Nat) : GameState :=
  if jsFalsy s.selectedDominoId then
    { s with message := Msg.selectFirst }
  else if (s.board r c).isSome then
    { s with message := Msg.cellOccupied }
  else
    let clicks := s.selectionClicks ++ [(r, c)]
    if clicks.length = 2 then
      let a := clicks.getD 0 (0, 0)
      let b := clicks.getD 1 (0, 0)
      if ! areAdjacent a b then
        { s with selectionClicks := [], message := Msg.notAdjacent }
      else
        match s.pool.find? (fun d => some d.id == s.selectedDominoId) with
        | none => { s with selectionClicks := [], message := Msg.dominoNotFound }
        | some dom =>
          let placements : List PCell := [⟨a.1, a.2, dom.a⟩, ⟨b.1, b.2, dom.b⟩]
          checkCompletion
            { s with
              board := placements.foldl
                (fun bd p => writeCell bd p.r p.c ⟨p.value, dom.id⟩) s.board
              placed := s.placed ++ [⟨dom.id, placements⟩]
              pool := s.pool.filter (fun x => x.id != dom.id)
              history := s.history ++ [⟨dom.id, placements⟩]
              selectedDominoId := none
              selectionClicks := []
              message := Msg.placedCount (s.placed.length + 1) }
    else
      { s with selectionClicks := clicks, message := Msg.secondCell }

/-- `undo()`.  The result is `none` exactly when the source would throw
(reading `.cells` of `solutionTiles[id]` for an id outside the solution
array), which never happens in reachable states. -/
def undo (s : GameState) : Option GameState :=
  match s.history.getLast? with
  | none => some { s with message := Msg.nothingToUndo }
  | some last =>
    match intGet s.solutionTiles last.dominoId with
    | none => none
    | some sol =>
      some { s with
        history := s.history.dropLast
        board := last.cells.foldl (fun bd cell => clearCell bd cell.r cell.c) s.board
        pool := s.pool ++ [⟨last.dominoId, sol.c0.value, sol.c1.value⟩]
        placed := s.placed.filter (fun p => p.id != last.dominoId)
        message := Msg.undid }

/-- The states reachable from a fresh puzzle under the user operations.
Cell clicks carry coordinates in [0,4) since they originate from the 4x4
grid of DOM cells; `restart` re-runs `initPuzzle` with fresh randomness. -/
inductive Reachable : GameState → Prop where
  | start (dirs : List Bool) (pips : List Nat) (tiles : List Tile) (pool0 : List Domino) :
      generateRandomTilingWithValues dirs pips = Except.ok tiles →
      pool0.Perm (poolOf tiles) →
      Reachable (initState tiles pool0)
  | select (s : GameState) (id : Int) : Reachable s → Reachable (onSelectDomino s id)
  | click (s : GameState) (r c : Nat) : Reachable s → r < SIZE → c < SIZE →
      Reachable (onCellClick s r c)
  | undoStep (s s' : GameState) : Reachable s → undo s = some s' → Reachable s'
  | restart (s : GameState) (dirs : List Bool) (pips : List Nat)
      (tiles : List Tile) (pool0 : List Domino) : Reachable s →
      generateRandomTilingWithValues dirs pips = Except.ok tiles →
      pool0.Perm (poolOf tiles) →
      Reachable (initState tiles pool0)

/-! ## Generator lemmas -/

lemma mem_gridList {p : Nat × Nat} : p ∈ gridList ↔ p.1 < SIZE ∧ p.2 < SIZE := by
  cases p with
  | mk a b =>
    simp only [gridList, List.mem_flatMap, List.mem_map, List.mem_range, Prod.mk.injEq]
    constructor
    · rintro ⟨r, hr, c, hc, rfl, rfl⟩; exact ⟨hr, hc⟩
    · rintro ⟨ha, hb⟩; exact ⟨a, ha, b, hb, rfl, rfl⟩

lemma gridList_nodup : gridList.Nodup := by decide

lemma gridList_length : gridList.length = 16 := by decide

lemma findFirstEmpty_eq_none {cells : List (Nat × Nat)}
    (h : findFirstEmpty cells = none) : ∀ p ∈ gridList, p ∈ cells := by
  intro p hp
  have := List.find?_eq_none.mp h p hp
  simpa using this

lemma findFirstEmpty_eq_some {cells : List (Nat × Nat)} {p : Nat × Nat}
    (h : findFirstEmpty cells = some p) : p ∈ gridList ∧ p ∉ cells := by
  refine ⟨List.mem_of_find?_eq_some h, ?_⟩
  have := List.find?_some h
  simpa using this

lemma randInt_bounds (k : Nat) : 1 ≤ randInt 1 6 k ∧ randInt 1 6 k ≤ 6 := by
  unfold randInt
  have : k % 6 < 6 := Nat.mod_lt _ (by omega)
  omega

/-- The joint invariant of `tryPlace`: the occupied-set is duplicate-free,
it is exactly the multiset of coordinates of the tiles placed so far, it
stays on the board, and every placed tile is well formed. -/
def GenInv (cells : List (Nat × Nat)) (tiles : List Tile) : Prop :=
  cells.Nodup ∧ cells.Perm (tilesCoords tiles) ∧
    (∀ p ∈ cells, p.1 < SIZE ∧ p.2 < SIZE) ∧ ∀ t ∈ tiles, TileOK t

/-- The contract of the generator: 8 tiles whose coordinates are exactly
the 16 grid cells, each tile well formed. -/
def GoodTiling (tiles : List Tile) : Prop :=
  tiles.length = 8 ∧ (tilesCoords tiles).Perm gridList ∧ ∀ t ∈ tiles, TileOK t

lemma genInv_nil : GenInv [] [] := by
  refine ⟨List.nodup_nil, ?_, by simp, by simp⟩
  simp [tilesCoords, allCells]

lemma allCells_append (tiles : List Tile) (t : Tile) :
    allCells (tiles ++ [t]) = allCells tiles ++ [t.c0, t.c1] := by
  simp [allCells, tileCells]

lemma tilesCoords_append (tiles : List Tile) (t : Tile) :
    tilesCoords (tiles ++ [t]) = tilesCoords tiles ++ [(t.c0.r, t.c0.c), (t.c1.r, t.c1.c)] := by
  simp [tilesCoords, allCells_append]

lemma allCells_length (tiles : List Tile) : (allCells tiles).length = 2 * tiles.length := by
  induction tiles with
  | nil => simp [allCells]
  | cons t ts ih => simp [allCells, tileCells] at ih ⊢; omega

lemma tilesCoords_length (tiles : List Tile) :
    (tilesCoords tiles).length = 2 * tiles.length := by
  simp [tilesCoords, allCells_length]

lemma genInv_final {cells : List (Nat × Nat)} {tiles : List Tile}
    (hinv : GenInv cells tiles) (hffe : findFirstEmpty cells = none) :
    GoodTiling tiles := by
  obtain ⟨hnd, hperm, hbounds, hok⟩ := hinv
  have hsub1 : gridList ⊆ cells := fun p hp => findFirstEmpty_eq_none hffe p hp
  have hsub2 : cells ⊆ gridList := by
    intro p hp
    exact mem_gridList.mpr (hbounds p hp)
  have hpg : cells.Perm gridList :=
    (hnd.subperm hsub2).antisymm (gridList_nodup.subperm hsub1)
  have hcoords : (tilesCoords tiles).Perm gridList := (hperm.symm.trans hpg)
  refine ⟨?_, hcoords, hok⟩
  have hlen : (tilesCoords tiles).length = gridList.length := hcoords.length_eq
  rw [tilesCoords_length, gridList_length] at hlen
  omega

lemma genInv_step {cells : List (Nat × Nat)} {tiles : List Tile} {r c : Nat}
    {d : Nat × Nat} (hd : d = (0, 1) ∨ d = (1, 0))
    (hinv : GenInv cells tiles) (hffe : findFirstEmpty cells = some (r, c))
    (hok : dirOk cells r c d = true) (pips : List Nat) :
    GenInv (nextCells cells r c d) (tiles ++ [mkTile r c d pips]) := by
  obtain ⟨hnd, hperm, hbounds, htok⟩ := hinv
  obtain ⟨hrc_grid, hrc_notmem⟩ := findFirstEmpty_eq_some hffe
  have hrc4 : r < SIZE ∧ c < SIZE := mem_gridList.mp hrc_grid
  have hok' : r + d.1 < SIZE ∧ c + d.2 < SIZE ∧ (r + d.1, c + d.2) ∉ cells := by
    unfold dirOk at hok
    simp only [Bool.and_eq_true, decide_eq_true_eq, Bool.not_eq_true'] at hok
    refine ⟨hok.1.1, hok.1.2, ?_⟩
    intro hmem
    have hc : cells.contains (r + d.1, c + d.2) = true := by simpa using hmem
    rw [hok.2] at hc
    exact Bool.false_ne_true hc
  have hne : (r, c) ≠ (r + d.1, c + d.2) := by
    rcases hd with rfl | rfl <;> simp
  refine ⟨?_, ?_, ?_, ?_⟩
  · -- Nodup
    simp only [nextCells, List.nodup_cons, List.mem_cons]
    exact ⟨by rintro (h | h); exact hne h; exact hrc_notmem h, hok'.2.2, hnd⟩
  · -- Perm
    rw [tilesCoords_append]
    have h1 : (mkTile r c d pips).c0 = ⟨r, c, randInt 1 6 (pips.headD 0)⟩ := rfl
    have h2 : (mkTile r c d pips).c1 =
        ⟨r + d.1, c + d.2, randInt 1 6 (pips.tail.headD 0)⟩ := rfl
    rw [h1, h2]
    have hstep : (nextCells cells r c d).Perm (cells ++ [(r, c), (r + d.1, c + d.2)]) :=
      @List.perm_append_comm _ [(r, c), (r + d.1, c + d.2)] cells
    exact hstep.trans (hperm.append_right _)
  · -- bounds
    intro p hp
    simp only [nextCells, List.mem_cons] at hp
    rcases hp with rfl | rfl | hp
    · exact hrc4
    · exact ⟨hok'.1, hok'.2.1⟩
    · exact hbounds p hp
  · -- TileOK
    intro t ht
    rcases List.mem_append.mp ht with ht | ht
    · exact htok t ht
    · have : t = mkTile r c d pips := by simpa using ht
      subst this
      have hv1 := randInt_bounds (pips.headD 0)
      have hv2 := randInt_bounds (pips.tail.headD 0)
      refine ⟨?_, hrc4.1, hrc4.2, hok'.1, hok'.2.1, hv1.1, hv1.2, hv2.1, hv2.2⟩
      rcases hd with rfl | rfl
      · left; exact ⟨rfl, rfl⟩
      · right; exact ⟨rfl, rfl⟩

lemma tryPlace_sound : ∀ (fuel : Nat) (cells : List (Nat × Nat)) (tiles : List Tile)
    (dirs : List Bool) (pips : List Nat) (res : List Tile)
    (sd : List Bool) (sp : List Nat),
    tryPlace fuel cells tiles dirs pips = (some res, sd, sp) →
    GenInv cells tiles → GoodTiling res := by
  intro fuel
  induction fuel with
  | zero => intro cells tiles dirs pips res sd sp h _; simp [tryPlace] at h
  | succ fuel ih =>
    intro cells tiles dirs pips res sd sp h hinv
    rw [tryPlace] at h
    cases hffe : findFirstEmpty cells with
    | none =>
      rw [hffe] at h
      simp only [Prod.mk.injEq, Option.some.injEq] at h
      obtain ⟨rfl, -, -⟩ := h
      exact genInv_final hinv hffe
    | some rc =>
      obtain ⟨r, c⟩ := rc
      rw [hffe] at h
      simp only at h
      set d1 := (dirOrder (dirs.headD true)).1 with hd1
      set d2 := (dirOrder (dirs.headD true)).2 with hd2
      have hd12 : (d1 = (0, 1) ∨ d1 = (1, 0)) ∧ (d2 = (0, 1) ∨ d2 = (1, 0)) := by
        rw [hd1, hd2]
        cases dirs.headD true <;> simp [dirOrder]
      by_cases hok1 : dirOk cells r c d1 = true
      · rw [if_pos hok1] at h
        rcases h1 : tryPlace fuel (nextCells cells r c d1)
            (tiles ++ [mkTile r c d1 pips]) dirs.tail pips.tail.tail with ⟨o1, sd2, sp2⟩
        rw [h1] at h
        cases o1 with
        | some t1 =>
          simp only [Prod.mk.injEq, Option.some.injEq] at h
          obtain ⟨rfl, -, -⟩ := h
          exact ih _ _ _ _ _ _ _ h1 (genInv_step hd12.1 hinv hffe hok1 pips)
        | none =>
          simp only at h
          by_cases hok2 : dirOk cells r c d2 = true
          · rw [if_pos hok2] at h
            exact ih _ _ _ _ _ _ _ h (genInv_step hd12.2 hinv hffe hok2 sp2)
          · rw [if_neg hok2] at h
            simp at h
      · rw [if_neg hok1] at h
        simp only at h
        by_cases hok2 : dirOk cells r c d2 = true
        · rw [if_pos hok2] at h
          exact ih _ _ _ _ _ _ _ h (genInv_step hd12.2 hinv hffe hok2 pips)
        · rw [if_neg hok2] at h
          simp at h

/-- Whether `tryPlace` succeeds depends only on the occupied-set, not on
the randomness streams: it equals the fixed-order search `canTile`. -/
lemma tryPlace_isSome : ∀ (fuel : Nat) (cells : List (Nat × Nat)) (tiles : List Tile)
    (dirs : List Bool) (pips : List Nat),
    (tryPlace fuel cells tiles dirs pips).1.isSome = canTile fuel cells := by
  intro fuel
  induction fuel with
  | zero => intro cells tiles dirs pips; simp [tryPlace, canTile]
  | succ fuel ih =>
    intro cells tiles dirs pips
    rw [tryPlace, canTile]
    cases hffe : findFirstEmpty cells with
    | none => simp
    | some rc =>
      obtain ⟨r, c⟩ := rc
      simp only
      cases hb : dirs.headD true
      · -- shuffled order: down first, then right
        simp only [dirOrder, Bool.false_eq_true, if_false]
        rw [Bool.or_comm]
        by_cases hok1 : dirOk cells r c (1, 0) = true
        · rw [if_pos hok1]
          rcases h1 : tryPlace fuel (nextCells cells r c (1, 0))
              (tiles ++ [mkTile r c (1, 0) pips]) dirs.tail pips.tail.tail with ⟨o1, sd2, sp2⟩
          have e1 : o1.isSome = canTile fuel (nextCells cells r c (1, 0)) := by
            have h2 := ih (nextCells cells r c (1, 0))
              (tiles ++ [mkTile r c (1, 0) pips]) dirs.tail pips.tail.tail
            rw [h1] at h2
            exact h2
          cases o1 with
          | some t1 => simp [hok1, ← e1]
          | none =>
            simp only
            by_cases hok2 : dirOk cells r c (0, 1) = true
            · rw [if_pos hok2]
              rw [ih (nextCells cells r c (0, 1)) (tiles ++ [mkTile r c (0, 1) sp2])
                sd2 sp2.tail.tail]
              simp [hok1, hok2, ← e1]
            · rw [if_neg hok2]
              simp only [Bool.not_eq_true] at hok2
              simp [hok1, hok2, ← e1]
        · rw [if_neg hok1]
          simp only [Bool.not_eq_true] at hok1
          simp only
          by_cases hok2 : dirOk cells r c (0, 1) = true
          · rw [if_pos hok2]
            rw [ih (nextCells cells r c (0, 1)) (tiles ++ [mkTile r c (0, 1) pips])
              dirs.tail pips.tail.tail]
            simp [hok1, hok2]
          · rw [if_neg hok2]
            simp only [Bool.not_eq_true] at hok2
            simp [hok1, hok2]
      · -- shuffled order: right first, then down
        simp only [dirOrder, if_true]
        by_cases hok1 : dirOk cells r c (0, 1) = true
        · rw [if_pos hok1]
          rcases h1 : tryPlace fuel (nextCells cells r c (0, 1))
              (tiles ++ [mkTile r c (0, 1) pips]) dirs.tail pips.tail.tail with ⟨o1, sd2, sp2⟩
          have e1 : o1.isSome = canTile fuel (nextCells cells r c (0, 1)) := by
            have h2 := ih (nextCells cells r c (0, 1))
              (tiles ++ [mkTile r c (0, 1) pips]) dirs.tail pips.tail.tail
            rw [h1] at h2
            exact h2
          cases o1 with
          | some t1 => simp [hok1, ← e1]
          | none =>
            simp only
            by_cases hok2 : dirOk cells r c (1, 0) = true
            · rw [if_pos hok2]
              rw [ih (nextCells cells r c (1, 0)) (tiles ++ [mkTile r c (1, 0) sp2])
                sd2 sp2.tail.tail]
              simp [hok1, hok2, ← e1]
            · rw [if_neg hok2]
              simp only [Bool.not_eq_true] at hok2
              simp [hok1, hok2, ← e1]
        · rw [if_neg hok1]
          simp only [Bool.not_eq_true] at hok1
          simp only
          by_cases hok2 : dirOk cells r c (1, 0) = true
          · rw [if_pos hok2]
            rw [ih (nextCells cells r c (1, 0)) (tiles ++ [mkTile r c (1, 0) pips])
              dirs.tail pips.tail.tail]
            simp [hok1, hok2]
          · rw [if_neg hok2]
            simp only [Bool.not_eq_true] at hok2
            simp [hok1, hok2]

/-- From the empty board a single `tryPlace` pass always succeeds,
whatever the randomness streams produce. -/
lemma tryPlace_empty_isSome (dirs : List Bool) (pips : List Nat) :
    (tryPlace 16 [] [] dirs pips).1.isSome = true := by
  rw [tryPlace_isSome]
  decide

/-- On the very first attempt `tryPlace` succeeds, so the retry loop
returns that first result. -/
lemma generate_eq_first (dirs : List Bool) (pips : List Nat) :
    ∃ tiles sd sp, tryPlace 16 [] [] dirs pips = (some tiles, sd, sp) ∧
      generateRandomTilingWithValues dirs pips = Except.ok tiles := by
  rcases h : tryPlace 16 [] [] dirs pips with ⟨o, sd, sp⟩
  have hs := tryPlace_empty_isSome dirs pips
  rw [h] at hs
  cases o with
  | none => simp at hs
  | some tiles =>
    refine ⟨tiles, sd, sp, rfl, ?_⟩
    unfold generateRandomTilingWithValues genLoop
    rw [h]

/-- Everything the generator returns is a full, well-formed tiling. -/
lemma generate_good {dirs : List Bool} {pips : List Nat} {tiles : List Tile}
    (h : generateRandomTilingWithValues dirs pips = Except.ok tiles) :
    GoodTiling tiles := by
  obtain ⟨tiles', sd, sp, h1, h2⟩ := generate_eq_first dirs pips
  rw [h] at h2
  obtain rfl : tiles = tiles' := by simpa using h2
  exact tryPlace_sound 16 [] [] dirs pips tiles sd sp h1 genInv_nil

/-! ## Claims C2 and C8 -/

/-- C2: every tiling returned by the generator has exactly 8 tiles, its 16
cells cover each of the 16 grid cells exactly once (their coordinate list
is a permutation of the duplicate-free row-major grid), each tile's second
cell is the right or down neighbour of its first, and every pip value lies
in [1,6] (the conjunction `TileOK`). -/
theorem generator_tiling_valid (dirs : List Bool) (pips : List Nat) (tiles : List Tile)
    (h : generateRandomTilingWithValues dirs pips = Except.ok tiles) :
    tiles.length = 8 ∧ (tilesCoords tiles).Perm gridList ∧ ∀ t ∈ tiles, TileOK t :=
  generate_good h

/-- The concrete tiling produced from the all-default randomness streams:
eight horizontal dominoes, every pip 1. -/
def T0 : List Tile :=
  [⟨⟨0,0,1⟩,⟨0,1,1⟩⟩, ⟨⟨0,2,1⟩,⟨0,3,1⟩⟩, ⟨⟨1,0,1⟩,⟨1,1,1⟩⟩, ⟨⟨1,2,1⟩,⟨1,3,1⟩⟩,
   ⟨⟨2,0,1⟩,⟨2,1,1⟩⟩, ⟨⟨2,2,1⟩,⟨2,3,1⟩⟩, ⟨⟨3,0,1⟩,⟨3,1,1⟩⟩, ⟨⟨3,2,1⟩,⟨3,3,1⟩⟩]

/-- Witness for C2 at the concrete run with empty randomness streams. -/
theorem generator_tiling_valid_witness :
    generateRandomTilingWithValues [] [] = Except.ok T0 ∧
    (T0.length = 8 ∧ (tilesCoords T0).Perm gridList ∧ ∀ t ∈ T0, TileOK t) :=
  ⟨by rfl, generator_tiling_valid [] [] T0 (by rfl)⟩

/-- C8: a single backtracking pass from the empty grid succeeds for every
possible randomness, so the retry loop never reaches the fatal-error
branch and the generator always returns a tiling. -/
theorem generator_never_exhausts (dirs : List Bool) (pips : List Nat) :
    (tryPlace 16 [] [] dirs pips).1.isSome = true ∧
    ∃ tiles, generateRandomTilingWithValues dirs pips = Except.ok tiles := by
  refine ⟨tryPlace_empty_isSome dirs pips, ?_⟩
  obtain ⟨tiles, sd, sp, h1, h2⟩ := generate_eq_first dirs pips
  exact ⟨tiles, h2⟩

/-! ## Target-calculator lemmas -/

lemma foldl_write_not_mem : ∀ (l : List TileCell) (b : Nat → Nat → Option Nat) (r c : Nat),
    (∀ cell ∈ l, ¬(cell.r = r ∧ cell.c = c)) →
    (l.foldl (fun b cell => writeNum b cell.r cell.c cell.value) b) r c = b r c := by
  intro l
  induction l with
  | nil => intro b r c h; rfl
  | cons x xs ih =>
    intro b r c h
    rw [List.foldl_cons, ih _ r c (fun cell hc => h cell (List.mem_cons_of_mem _ hc))]
    unfold writeNum
    rw [if_neg (fun hc => h x (List.mem_cons_self _ _) ⟨hc.1.symm, hc.2.symm⟩)]

lemma foldl_write_mem (cell : TileCell) : ∀ (l : List TileCell)
    (b : Nat → Nat → Option Nat), cell ∈ l →
    (l.map (fun x => (x.r, x.c))).Nodup →
    (l.foldl (fun b cell => writeNum b cell.r cell.c cell.value) b) cell.r cell.c =
      some cell.value := by
  intro l
  induction l with
  | nil => intro b hmem _; cases hmem
  | cons x xs ih =>
    intro b hmem hnd
    rw [List.map_cons, List.nodup_cons] at hnd
    rcases List.mem_cons.mp hmem with rfl | hmem'
    · rw [List.foldl_cons]
      rw [foldl_write_not_mem xs _ cell.r cell.c]
      · unfold writeNum
        rw [if_pos ⟨rfl, rfl⟩]
      · intro y hy hxy
        apply hnd.1
        rw [List.mem_map]
        exact ⟨y, hy, by rw [hxy.1, hxy.2]⟩
    · rw [List.foldl_cons]
      exact ih _ hmem' hnd.2

lemma numBoard_at {tiles : List Tile} (hnd : (tilesCoords tiles).Nodup) :
    ∀ cell ∈ allCells tiles, numBoard tiles cell.r cell.c = some cell.value := by
  intro cell hc
  exact foldl_write_mem cell (allCells tiles) _ hc hnd

lemma targets_sum_eq_grid (tiles : List Tile) :
    (computeBlockTargetsFromTiles tiles).sum =
      (gridList.map (fun p => numAt tiles p.1 p.2)).sum := by
  have hg : gridList =
      [(0,0),(0,1),(0,2),(0,3),(1,0),(1,1),(1,2),(1,3),
       (2,0),(2,1),(2,2),(2,3),(3,0),(3,1),(3,2),(3,3)] := by decide
  rw [computeBlockTargetsFromTiles, hg]
  simp only [BLOCKS, block2x2Sum, List.map_cons, List.map_nil, List.sum_cons,
    List.sum_nil]
  norm_num
  ring

lemma grid_sum_eq_pipSum (tiles : List Tile)
    (hperm : (tilesCoords tiles).Perm gridList) :
    (gridList.map (fun p => numAt tiles p.1 p.2)).sum = pipSum tiles := by
  have hnd : (tilesCoords tiles).Nodup := hperm.nodup_iff.mpr gridList_nodup
  have h1 : (gridList.map (fun p => numAt tiles p.1 p.2)).sum =
      ((tilesCoords tiles).map (fun p => numAt tiles p.1 p.2)).sum :=
    ((hperm.map _).sum_eq).symm
  rw [h1, tilesCoords, List.map_map]
  unfold pipSum
  congr 1
  apply List.map_congr_left
  intro cell hc
  have := numBoard_at hnd cell hc
  simp [numAt, this]

/-! ## Claim C5 -/

/-- C5: the target calculator is a pure function (applying it twice to the
same tiles yields the same list), and for every tiling whose cells cover
the grid exactly once the four targets sum to the total of all 16 pip
values. -/
theorem targets_deterministic_and_sum (tiles : List Tile)
    (hperm : (tilesCoords tiles).Perm gridList) :
    computeBlockTargetsFromTiles tiles = computeBlockTargetsFromTiles tiles ∧
    (computeBlockTargetsFromTiles tiles).sum = pipSum tiles :=
  ⟨rfl, (targets_sum_eq_grid tiles).trans (grid_sum_eq_pipSum tiles hperm)⟩

/-- Witness for C5 on the concrete tiling `T0`. -/
theorem targets_deterministic_and_sum_witness :
    (tilesCoords T0).Perm gridList ∧
    (computeBlockTargetsFromTiles T0 = computeBlockTargetsFromTiles T0 ∧
      (computeBlockTargetsFromTiles T0).sum = pipSum T0) :=
  ⟨by decide, targets_deterministic_and_sum T0 (by decide)⟩

/-! ## State-machine lemmas -/

lemma jsFalsy_some {id : Int} (h : id ≠ 0) : jsFalsy (some id) = false := by
  simp [jsFalsy, h]

lemma areAdjacent_ne {a b : Nat × Nat} (h : areAdjacent a b = true) : a ≠ b := by
  rintro rfl
  simp [areAdjacent] at h

lemma areAdjacent_symm (a b : Nat × Nat) : areAdjacent a b = areAdjacent b a := by
  unfold areAdjacent
  have h1 : ((a.1 : Int) - b.1).natAbs = ((b.1 : Int) - a.1).natAbs := by omega
  have h2 : ((a.2 : Int) - b.2).natAbs = ((b.2 : Int) - a.2).natAbs := by omega
  rw [h1, h2]

lemma writeCell_same (bd : Nat → Nat → Option BoardCell) (r c : Nat) (x : BoardCell) :
    writeCell bd r c x r c = some x := by
  simp [writeCell]

lemma writeCell_ne (bd : Nat → Nat → Option BoardCell) (r c : Nat) (x : BoardCell)
    {r' c' : Nat} (h : ¬(r' = r ∧ c' = c)) : writeCell bd r c x r' c' = bd r' c' := by
  simp [writeCell, h]

lemma clearCell_cases (bd : Nat → Nat → Option BoardCell) (r c r' c' : Nat) :
    clearCell bd r c r' c' = none ∨ clearCell bd r c r' c' = bd r' c' := by
  unfold clearCell
  by_cases h : r' = r ∧ c' = c
  · left; rw [if_pos h]
  · right; rw [if_neg h]

/-- `checkCompletion` only ever updates the message. -/
lemma checkCompletion_shape (s : GameState) :
    ∃ m, checkCompletion s = { s with message := m } := by
  unfold checkCompletion
  by_cases h : gridList.any (fun p => (s.board p.1 p.2).isNone) = true
  · exact ⟨s.message, by rw [if_pos h]⟩
  · rw [if_neg h]
    simp only
    split
    · exact ⟨Msg.solved, rfl⟩
    · exact ⟨_, rfl⟩

lemma checkCompletion_board (t : GameState) : (checkCompletion t).board = t.board := by
  obtain ⟨m, hm⟩ := checkCompletion_shape t
  rw [hm]

lemma checkCompletion_pool (t : GameState) : (checkCompletion t).pool = t.pool := by
  obtain ⟨m, hm⟩ := checkCompletion_shape t
  rw [hm]

lemma checkCompletion_placed (t : GameState) : (checkCompletion t).placed = t.placed := by
  obtain ⟨m, hm⟩ := checkCompletion_shape t
  rw [hm]

lemma checkCompletion_history (t : GameState) : (checkCompletion t).history = t.history := by
  obtain ⟨m, hm⟩ := checkCompletion_shape t
  rw [hm]

lemma checkCompletion_selected (t : GameState) :
    (checkCompletion t).selectedDominoId = t.selectedDominoId := by
  obtain ⟨m, hm⟩ := checkCompletion_shape t
  rw [hm]

lemma checkCompletion_clicks (t : GameState) :
    (checkCompletion t).selectionClicks = t.selectionClicks := by
  obtain ⟨m, hm⟩ := checkCompletion_shape t
  rw [hm]

lemma checkCompletion_solution (t : GameState) :
    (checkCompletion t).solutionTiles = t.solutionTiles := by
  obtain ⟨m, hm⟩ := checkCompletion_shape t
  rw [hm]

/-- The no-selection branch of `onCellClick` (also taken when domino 0 is
selected, since `!selectedDominoId` is true for the number 0). -/
lemma onCellClick_noSelection (s : GameState) (r c : Nat)
    (h : jsFalsy s.selectedDominoId = true) :
    onCellClick s r c = { s with message := Msg.selectFirst } := by
  unfold onCellClick
  rw [if_pos h]

/-- The occupied-cell branch of `onCellClick`. -/
lemma onCellClick_occupied (s : GameState) (r c : Nat)
    (hf : jsFalsy s.selectedDominoId = false)
    (h : (s.board r c).isSome = true) :
    onCellClick s r c = { s with message := Msg.cellOccupied } := by
  unfold onCellClick
  rw [if_neg (by rw [hf]; exact Bool.false_ne_true), if_pos h]

/-- The first-click branch: the cell is appended to the pending list. -/
lemma onCellClick_first (s : GameState) (r c : Nat)
    (hf : jsFalsy s.selectedDominoId = false)
    (hclicks : s.selectionClicks = [])
    (hb : s.board r c = none) :
    onCellClick s r c = { s with selectionClicks := [(r, c)], message := Msg.secondCell } := by
  unfold onCellClick
  rw [if_neg (by rw [hf]; exact Bool.false_ne_true),
    if_neg (by rw [hb]; simp), hclicks]
  simp

/-- The second-click branch with non-adjacent cells. -/
lemma onCellClick_notAdjacent (s : GameState) (r1 c1 r2 c2 : Nat)
    (hf : jsFalsy s.selectedDominoId = false)
    (hclicks : s.selectionClicks = [(r1, c1)])
    (hb : s.board r2 c2 = none)
    (hadj : areAdjacent (r1, c1) (r2, c2) = false) :
    onCellClick s r2 c2 = { s with selectionClicks := [], message := Msg.notAdjacent } := by
  unfold onCellClick
  rw [if_neg (by rw [hf]; exact Bool.false_ne_true),
    if_neg (by rw [hb]; simp), hclicks]
  simp [hadj]

/-- The second-click branch when the selected id is not in the pool. -/
lemma onCellClick_notFound (s : GameState) (r1 c1 r2 c2 : Nat)
    (hf : jsFalsy s.selectedDominoId = false)
    (hclicks : s.selectionClicks = [(r1, c1)])
    (hb : s.board r2 c2 = none)
    (hadj : areAdjacent (r1, c1) (r2, c2) = true)
    (hfind : s.pool.find? (fun d => some d.id == s.selectedDominoId) = none) :
    onCellClick s r2 c2 = { s with selectionClicks := [], message := Msg.dominoNotFound } := by
  unfold onCellClick
  rw [if_neg (by rw [hf]; exact Bool.false_ne_true),
    if_neg (by rw [hb]; simp), hclicks]
  simp [hadj, hfind]

/-- The successful-placement branch of `onCellClick`. -/
lemma onCellClick_place (s : GameState) (dom : Domino) (r1 c1 r2 c2 : Nat)
    (hf : jsFalsy s.selectedDominoId = false)
    (hclicks : s.selectionClicks = [(r1, c1)])
    (hb : s.board r2 c2 = none)
    (hadj : areAdjacent (r1, c1) (r2, c2) = true)
    (hfind : s.pool.find? (fun d => some d.id == s.selectedDominoId) = some dom) :
    onCellClick s r2 c2 = checkCompletion
      { s with
        board := writeCell (writeCell s.board r1 c1 ⟨dom.a, dom.id⟩) r2 c2 ⟨dom.b, dom.id⟩
        placed := s.placed ++ [⟨dom.id, [⟨r1, c1, dom.a⟩, ⟨r2, c2, dom.b⟩]⟩]
        pool := s.pool.filter (fun x => x.id != dom.id)
        history := s.history ++ [⟨dom.id, [⟨r1, c1, dom.a⟩, ⟨r2, c2, dom.b⟩]⟩]
        selectedDominoId := none
        selectionClicks := []
        message := Msg.placedCount (s.placed.length + 1) } := by
  unfold onCellClick
  rw [if_neg (by rw [hf]; exact Bool.false_ne_true),
    if_neg (by rw [hb]; simp), hclicks]
  simp [hadj, hfind]

/-! ## The reachable-state invariant -/

/-- A history entry viewed as the placement it recorded. -/
def histToPlacement (e : HistEntry) : Placement := ⟨e.dominoId, e.cells⟩

/-- The inductive invariant of the puzzle state: pool entries mirror the
solution tiling, the domino ids are exactly 0..7 split between pool and
placed, the placed list mirrors the history, every placement owns two
adjacent in-grid board cells carrying its id, every occupied board cell
belongs to a placement, the board is empty off the grid, and pending
clicks point at empty in-grid cells (at most one of them). -/
structure FullInv (s : GameState) : Prop where
  len8 : s.solutionTiles.length = 8
  poolSol : ∀ d ∈ s.pool, ∃ sol, intGet s.solutionTiles d.id = some sol ∧
      d.a = sol.c0.value ∧ d.b = sol.c1.value
  idsPerm : (s.pool.map Domino.id ++ s.placed.map Placement.id).Perm
      ((List.range 8).map Int.ofNat)
  hist : s.placed = s.history.map histToPlacement
  placedCells : ∀ p ∈ s.placed, ∃ x y, p.cells = [x, y] ∧
      areAdjacent (x.r, x.c) (y.r, y.c) = true ∧
      x.r < SIZE ∧ x.c < SIZE ∧ y.r < SIZE ∧ y.c < SIZE ∧
      s.board x.r x.c = some ⟨x.value, p.id⟩ ∧
      s.board y.r y.c = some ⟨y.value, p.id⟩
  boardPlaced : ∀ r c bc, s.board r c = some bc → ∃ p ∈ s.placed,
      p.id = bc.dominoId ∧ ∃ cell ∈ p.cells, cell.r = r ∧ cell.c = c ∧ cell.value = bc.value
  inGrid : ∀ r c, SIZE ≤ r ∨ SIZE ≤ c → s.board r c = none
  clicksEmpty : ∀ q ∈ s.selectionClicks, s.board q.1 q.2 = none ∧ q.1 < SIZE ∧ q.2 < SIZE
  clickLen : s.selectionClicks.length ≤ 1

lemma intCast_nat_injective : Function.Injective Int.ofNat := by
  intro a b h
  exact Int.ofNat.inj h

lemma fullInv_ids_nodup {s : GameState} (hinv : FullInv s) :
    (s.pool.map Domino.id ++ s.placed.map Placement.id).Nodup :=
  hinv.idsPerm.nodup_iff.mpr ((List.nodup_range 8).map intCast_nat_injective)

lemma filter_id_perm : ∀ (l : List Domino) (x : Domino),
    (l.map Domino.id).Nodup → x ∈ l →
    l.Perm (x :: l.filter (fun y => y.id != x.id)) := by
  intro l
  induction l with
  | nil => intro x _ h; cases h
  | cons a t ih =>
    intro x hnd hx
    rw [List.map_cons, List.nodup_cons] at hnd
    rcases List.mem_cons.mp hx with rfl | hx2
    · have hfilter : t.filter (fun y => y.id != x.id) = t := by
        apply List.filter_eq_self.mpr
        intro y hy
        simp only [bne_iff_ne, ne_eq, decide_eq_true_eq]
        intro hEq
        exact hnd.1 (List.mem_map.mpr ⟨y, hy, hEq⟩)
      rw [List.filter_cons_of_neg (by simp)]
      rw [hfilter]
    · have ha_ne : a.id ≠ x.id := by
        intro h
        exact hnd.1 (h ▸ List.mem_map.mpr ⟨x, hx2, rfl⟩)
      rw [List.filter_cons_of_pos (by simpa using fun h => ha_ne h)]
      exact ((ih x hnd.2 hx2).cons a).trans (List.Perm.swap x a _)

lemma poolOf_mem {tiles : List Tile} {d : Domino} (hd : d ∈ poolOf tiles) :
    ∃ sol, intGet tiles d.id = some sol ∧ d.a = sol.c0.value ∧ d.b = sol.c1.value := by
  unfold poolOf at hd
  rw [List.mem_map] at hd
  obtain ⟨e, he, rfl⟩ := hd
  have hget : tiles.get? e.1 = some e.2 := by
    rw [List.get?_eq_getElem?]
    exact List.mem_enum_iff_getElem?.mp he
  refine ⟨e.2, ?_, rfl, rfl⟩
  unfold intGet
  rw [if_neg (by simp)]
  simpa using hget

lemma poolOf_map_id (tiles : List Tile) :
    (poolOf tiles).map Domino.id = (List.range tiles.length).map Int.ofNat := by
  unfold poolOf
  rw [List.map_map, ← List.enum_map_fst tiles, List.map_map]
  rfl

lemma fullInv_initState {tiles : List Tile} {pool0 : List Domino}
    (hlen : tiles.length = 8) (hperm : pool0.Perm (poolOf tiles)) :
    FullInv (initState tiles pool0) := by
  refine ⟨hlen, ?_, ?_, rfl, ?_, ?_, ?_, ?_, ?_⟩
  · intro d hd
    exact poolOf_mem (hperm.subset hd)
  · show (pool0.map Domino.id ++ []).Perm _
    rw [List.append_nil]
    have h1 := hperm.map Domino.id
    rw [poolOf_map_id, hlen] at h1
    exact h1
  · intro p hp; cases hp
  · intro r c bc h; cases h
  · intro r c _; rfl
  · intro q hq; cases hq
  · show ([] : List (Nat × Nat)).length ≤ 1
    simp

lemma fullInv_select {s : GameState} (hinv : FullInv s) (id : Int) :
    FullInv (onSelectDomino s id) := by
  unfold onSelectDomino
  split
  · exact hinv
  · exact ⟨hinv.len8, hinv.poolSol, hinv.idsPerm, hinv.hist, hinv.placedCells,
      hinv.boardPlaced, hinv.inGrid, (by intro q hq; cases hq), (by simp)⟩

lemma fullInv_msg {s : GameState} (hinv : FullInv s) (m : Msg) :
    FullInv { s with message := m } :=
  ⟨hinv.len8, hinv.poolSol, hinv.idsPerm, hinv.hist, hinv.placedCells,
    hinv.boardPlaced, hinv.inGrid, hinv.clicksEmpty, hinv.clickLen⟩

lemma fullInv_msg_clicks {s : GameState} (hinv : FullInv s) (m : Msg) :
    FullInv { s with selectionClicks := [], message := m } :=
  ⟨hinv.len8, hinv.poolSol, hinv.idsPerm, hinv.hist, hinv.placedCells,
    hinv.boardPlaced, hinv.inGrid, (by intro q hq; cases hq), (by simp)⟩

lemma fullInv_checkCompletion {s : GameState} (hinv : FullInv s) :
    FullInv (checkCompletion s) := by
  obtain ⟨m, hm⟩ := checkCompletion_shape s
  rw [hm]
  exact fullInv_msg hinv m

/-- A list with duplicate-free keys is, up to permutation, any chosen
element plus the entries with a different key. -/
lemma filter_key_perm {α κ : Type} [DecidableEq κ] (key : α → κ) :
    ∀ (l : List α) (x : α), (l.map key).Nodup → x ∈ l →
    l.Perm (x :: l.filter (fun y => key y != key x)) := by
  intro l
  induction l with
  | nil => intro x _ h; cases h
  | cons a t ih =>
    intro x hnd hx
    rw [List.map_cons, List.nodup_cons] at hnd
    rcases List.mem_cons.mp hx with rfl | hx2
    · have hfilter : t.filter (fun y => key y != key x) = t := by
        apply List.filter_eq_self.mpr
        intro y hy
        simp only [bne_iff_ne, ne_eq, decide_eq_true_eq]
        intro hEq
        exact hnd.1 (List.mem_map.mpr ⟨y, hy, hEq⟩)
      rw [List.filter_cons_of_neg (by simp)]
      rw [hfilter]
    · have ha_ne : key a ≠ key x := by
        intro h
        exact hnd.1 (h ▸ List.mem_map.mpr ⟨x, hx2, rfl⟩)
      rw [List.filter_cons_of_pos (by simpa using fun h => ha_ne h)]
      exact ((ih x hnd.2 hx2).cons a).trans (List.Perm.swap x a _)

lemma fullInv_place {s : GameState} {dom : Domino} {r1 c1 r2 c2 : Nat} {m : Msg}
    (hinv : FullInv s)
    (hr1 : r1 < SIZE) (hc1 : c1 < SIZE) (hr2 : r2 < SIZE) (hc2 : c2 < SIZE)
    (hb1 : s.board r1 c1 = none) (hb2 : s.board r2 c2 = none)
    (hadj : areAdjacent (r1, c1) (r2, c2) = true)
    (hdom : dom ∈ s.pool) :
    FullInv { s with
      board := writeCell (writeCell s.board r1 c1 ⟨dom.a, dom.id⟩) r2 c2 ⟨dom.b, dom.id⟩
      placed := s.placed ++ [⟨dom.id, [⟨r1, c1, dom.a⟩, ⟨r2, c2, dom.b⟩]⟩]
      pool := s.pool.filter (fun x => x.id != dom.id)
      history := s.history ++ [⟨dom.id, [⟨r1, c1, dom.a⟩, ⟨r2, c2, dom.b⟩]⟩]
      selectedDominoId := none
      selectionClicks := []
      message := m } := by
  have hne12 : (r1, c1) ≠ (r2, c2) := areAdjacent_ne hadj
  have hnodup := fullInv_ids_nodup hinv
  have hpoolnd : (s.pool.map Domino.id).Nodup := (List.nodup_append.mp hnodup).1
  have hdisj := (List.nodup_append.mp hnodup).2.2
  have hid_not_placed : ∀ p ∈ s.placed, p.id ≠ dom.id := by
    intro p hp h
    exact hdisj (List.mem_map.mpr ⟨dom, hdom, rfl⟩) (List.mem_map.mpr ⟨p, hp, h⟩)
  have hB1 : writeCell (writeCell s.board r1 c1 ⟨dom.a, dom.id⟩) r2 c2 ⟨dom.b, dom.id⟩ r1 c1
      = some ⟨dom.a, dom.id⟩ := by
    rw [writeCell_ne _ _ _ _ (fun hc => hne12 (by rw [hc.1, hc.2]))]
    exact writeCell_same _ _ _ _
  have hB2 : writeCell (writeCell s.board r1 c1 ⟨dom.a, dom.id⟩) r2 c2 ⟨dom.b, dom.id⟩ r2 c2
      = some ⟨dom.b, dom.id⟩ := writeCell_same _ _ _ _
  have hBother : ∀ rr cc, ¬(rr = r1 ∧ cc = c1) → ¬(rr = r2 ∧ cc = c2) →
      writeCell (writeCell s.board r1 c1 ⟨dom.a, dom.id⟩) r2 c2 ⟨dom.b, dom.id⟩ rr cc
        = s.board rr cc := by
    intro rr cc h1 h2
    rw [writeCell_ne _ _ _ _ h2, writeCell_ne _ _ _ _ h1]
  have hkeep : ∀ (rr cc : Nat) (bc : BoardCell), s.board rr cc = some bc →
      writeCell (writeCell s.board r1 c1 ⟨dom.a, dom.id⟩) r2 c2 ⟨dom.b, dom.id⟩ rr cc
        = some bc := by
    intro rr cc bc h
    rw [hBother rr cc ?h1 ?h2]
    · exact h
    case h1 =>
      rintro ⟨rfl, rfl⟩
      rw [h] at hb1
      cases hb1
    case h2 =>
      rintro ⟨rfl, rfl⟩
      rw [h] at hb2
      cases hb2
  refine ⟨hinv.len8, ?_, ?_, ?_, ?_, ?_, ?_, ?_, ?_⟩
  · -- poolSol
    intro d hd
    exact hinv.poolSol d (List.mem_of_mem_filter hd)
  · -- idsPerm
    have hpp := (filter_key_perm Domino.id s.pool dom hpoolnd hdom).map Domino.id
    simp only [List.map_cons] at hpp
    dsimp only
    rw [List.map_append]
    have h1 : ((s.pool.filter (fun x => x.id != dom.id)).map Domino.id ++
          (s.placed.map Placement.id ++ [dom.id])).Perm
        (s.pool.map Domino.id ++ s.placed.map Placement.id) := by
      have e1 : (s.placed.map Placement.id ++ [dom.id]).Perm
          ([dom.id] ++ s.placed.map Placement.id) := List.perm_append_comm
      have e2 : ((s.pool.filter (fun x => x.id != dom.id)).map Domino.id ++
          ([dom.id] ++ s.placed.map Placement.id)).Perm
          ((dom.id :: (s.pool.filter (fun x => x.id != dom.id)).map Domino.id) ++
            s.placed.map Placement.id) := by
        rw [← List.append_assoc]
        exact (List.perm_append_comm).append_right _
      exact ((e1.append_left _).trans e2).trans (hpp.symm.append_right _)
    exact h1.trans hinv.idsPerm
  · -- hist
    show s.placed ++ _ = (s.history ++ _).map histToPlacement
    rw [List.map_append, ← hinv.hist]
    rfl
  · -- placedCells
    intro p hp
    rcases List.mem_append.mp hp with hp1 | hp2
    · obtain ⟨x, y, hcells, hxy, hx1, hx2, hy1, hy2, hbx, hby⟩ := hinv.placedCells p hp1
      exact ⟨x, y, hcells, hxy, hx1, hx2, hy1, hy2, hkeep _ _ _ hbx, hkeep _ _ _ hby⟩
    · have hpeq : p = ⟨dom.id, [⟨r1, c1, dom.a⟩, ⟨r2, c2, dom.b⟩]⟩ := by simpa using hp2
      subst hpeq
      exact ⟨⟨r1, c1, dom.a⟩, ⟨r2, c2, dom.b⟩, rfl, hadj, hr1, hc1, hr2, hc2, hB1, hB2⟩
  · -- boardPlaced
    intro rr cc bc h
    dsimp only at h ⊢
    by_cases h2 : rr = r2 ∧ cc = c2
    · rw [h2.1, h2.2, hB2] at h
      have hbc : bc = ⟨dom.b, dom.id⟩ := by
        injection h with hh
        exact hh.symm
      subst hbc
      refine ⟨⟨dom.id, [⟨r1, c1, dom.a⟩, ⟨r2, c2, dom.b⟩]⟩,
        List.mem_append_right _ (by simp), rfl, ⟨r2, c2, dom.b⟩, by simp,
        h2.1.symm, h2.2.symm, rfl⟩
    · by_cases h1 : rr = r1 ∧ cc = c1
      · rw [h1.1, h1.2,
          writeCell_ne _ _ _ _ (fun hc => h2 ⟨h1.1.trans hc.1, h1.2.trans hc.2⟩),
          writeCell_same] at h
        have hbc : bc = ⟨dom.a, dom.id⟩ := by
          injection h with hh
          exact hh.symm
        subst hbc
        refine ⟨⟨dom.id, [⟨r1, c1, dom.a⟩, ⟨r2, c2, dom.b⟩]⟩,
          List.mem_append_right _ (by simp), rfl, ⟨r1, c1, dom.a⟩, by simp,
          h1.1.symm, h1.2.symm, rfl⟩
      · rw [hBother rr cc h1 h2] at h
        obtain ⟨p, hp, hpid, cell, hcell, hcr, hcc2, hcv⟩ := hinv.boardPlaced rr cc bc h
        exact ⟨p, List.mem_append_left _ hp, hpid, cell, hcell, hcr, hcc2, hcv⟩
  · -- inGrid
    intro rr cc hout
    dsimp only
    rw [hBother rr cc ?g1 ?g2]
    · exact hinv.inGrid rr cc hout
    case g1 =>
      rintro ⟨rfl, rfl⟩
      unfold SIZE at hout hr1 hc1
      omega
    case g2 =>
      rintro ⟨rfl, rfl⟩
      unfold SIZE at hout hr2 hc2
      omega
  · -- clicksEmpty
    intro q hq
    cases hq
  · -- clickLen
    simp

lemma fullInv_click {s : GameState} (hinv : FullInv s) {r c : Nat}
    (hr : r < SIZE) (hc : c < SIZE) : FullInv (onCellClick s r c) := by
  by_cases hf : jsFalsy s.selectedDominoId = true
  · rw [onCellClick_noSelection s r c hf]
    exact fullInv_msg hinv _
  · have hf2 : jsFalsy s.selectedDominoId = false := by
      cases h : jsFalsy s.selectedDominoId
      · rfl
      · exact absurd h hf
    by_cases hocc : (s.board r c).isSome = true
    · rw [onCellClick_occupied s r c hf2 hocc]
      exact fullInv_msg hinv _
    · have hbnone : s.board r c = none := by
        cases h : s.board r c
        · rfl
        · rw [h] at hocc
          exact absurd rfl hocc
      cases hcl : s.selectionClicks with
      | nil =>
        rw [onCellClick_first s r c hf2 hcl hbnone]
        refine ⟨hinv.len8, hinv.poolSol, hinv.idsPerm, hinv.hist, hinv.placedCells,
          hinv.boardPlaced, hinv.inGrid, ?_, (by simp)⟩
        intro q hq
        have : q = (r, c) := by simpa using hq
        subst this
        exact ⟨hbnone, hr, hc⟩
      | cons q rest =>
        have hrest : rest = [] := by
          have hl := hinv.clickLen
          rw [hcl] at hl
          simpa using hl
        subst hrest
        obtain ⟨r1, c1⟩ := q
        by_cases hadj : areAdjacent (r1, c1) (r, c) = true
        · cases hfind : s.pool.find? (fun d => some d.id == s.selectedDominoId) with
          | none =>
            rw [onCellClick_notFound s r1 c1 r c hf2 hcl hbnone hadj hfind]
            exact fullInv_msg_clicks hinv _
          | some dom =>
            rw [onCellClick_place s dom r1 c1 r c hf2 hcl hbnone hadj hfind]
            apply fullInv_checkCompletion
            have hq1 := hinv.clicksEmpty (r1, c1) (by rw [hcl]; simp)
            exact fullInv_place hinv hq1.2.1 hq1.2.2 hr hc hq1.1 hbnone hadj
              (List.mem_of_find?_eq_some hfind)
        · have hadj2 : areAdjacent (r1, c1) (r, c) = false := by
            cases h : areAdjacent (r1, c1) (r, c)
            · rfl
            · exact absurd h hadj
          rw [onCellClick_notAdjacent s r1 c1 r c hf2 hcl hbnone hadj2]
          exact fullInv_msg_clicks hinv _

lemma clearTwo_none_left (bd : Nat → Nat → Option BoardCell) (r1 c1 r2 c2 : Nat) :
    clearCell (clearCell bd r1 c1) r2 c2 r1 c1 = none := by
  unfold clearCell
  by_cases h : r1 = r2 ∧ c1 = c2
  · rw [if_pos h]
  · rw [if_neg h, if_pos ⟨rfl, rfl⟩]

lemma clearTwo_none_right (bd : Nat → Nat → Option BoardCell) (r1 c1 r2 c2 : Nat) :
    clearCell (clearCell bd r1 c1) r2 c2 r2 c2 = none := by
  unfold clearCell
  rw [if_pos ⟨rfl, rfl⟩]

lemma clearTwo_other (bd : Nat → Nat → Option BoardCell) {r1 c1 r2 c2 rr cc : Nat}
    (h1 : ¬(rr = r1 ∧ cc = c1)) (h2 : ¬(rr = r2 ∧ cc = c2)) :
    clearCell (clearCell bd r1 c1) r2 c2 rr cc = bd rr cc := by
  unfold clearCell
  rw [if_neg h2, if_neg h1]

lemma clearTwo_cases (bd : Nat → Nat → Option BoardCell) (r1 c1 r2 c2 rr cc : Nat) :
    clearCell (clearCell bd r1 c1) r2 c2 rr cc = none ∨
    clearCell (clearCell bd r1 c1) r2 c2 rr cc = bd rr cc := by
  by_cases h2 : rr = r2 ∧ cc = c2
  · left
    unfold clearCell
    rw [if_pos h2]
  · by_cases h1 : rr = r1 ∧ cc = c1
    · left
      unfold clearCell
      rw [if_neg h2, if_pos h1]
    · right
      exact clearTwo_other bd h1 h2

lemma fullInv_undo {s s' : GameState} (hinv : FullInv s) (h : undo s = some s') :
    FullInv s' := by
  unfold undo at h
  cases hlast : s.history.getLast? with
  | none =>
    rw [hlast] at h
    simp only [Option.some.injEq] at h
    subst h
    exact fullInv_msg hinv _
  | some e =>
    rw [hlast] at h
    dsimp only at h
    cases hsol : intGet s.solutionTiles e.dominoId with
    | none =>
      rw [hsol] at h
      cases h
    | some sol =>
      rw [hsol] at h
      simp only [Option.some.injEq] at h
      subst h
      -- shared facts
      have hnodup := fullInv_ids_nodup hinv
      have hplnd : (s.placed.map Placement.id).Nodup := (List.nodup_append.mp hnodup).2.1
      have hdecomp : s.history.dropLast ++ [e] = s.history :=
        List.dropLast_append_getLast? e (Option.mem_def.mpr hlast)
      have hplaced_decomp : s.placed =
          s.history.dropLast.map histToPlacement ++ [histToPlacement e] := by
        have h2 : s.history.map histToPlacement =
            (s.history.dropLast ++ [e]).map histToPlacement := by rw [hdecomp]
        rw [hinv.hist, h2, List.map_append]
        rfl
      have hpe : histToPlacement e ∈ s.placed := by
        rw [hplaced_decomp]
        exact List.mem_append_right _ (by simp)
      have hpid_not : e.dominoId ∉
          (s.history.dropLast.map histToPlacement).map Placement.id := by
        have h2 : ((s.history.dropLast.map histToPlacement).map Placement.id ++
            [e.dominoId]).Nodup := by
          have h3 := hplnd
          rw [hplaced_decomp, List.map_append] at h3
          exact h3
        exact fun hmem => (List.nodup_append.mp h2).2.2 hmem (by simp)
      have hfilter_placed : s.placed.filter (fun p => p.id != e.dominoId) =
          s.history.dropLast.map histToPlacement := by
        rw [hplaced_decomp, List.filter_append]
        have hA : (s.history.dropLast.map histToPlacement).filter
            (fun p => p.id != e.dominoId) = s.history.dropLast.map histToPlacement := by
          apply List.filter_eq_self.mpr
          intro p hp
          simp only [bne_iff_ne, ne_eq, decide_eq_true_eq]
          intro hid
          exact hpid_not (hid ▸ List.mem_map.mpr ⟨p, hp, rfl⟩)
        have hB : [histToPlacement e].filter (fun p => p.id != e.dominoId) = [] := by
          simp [histToPlacement]
        rw [hA, hB, List.append_nil]
      have hunique : ∀ p ∈ s.placed, p.id = e.dominoId → p = histToPlacement e := by
        intro p hp hid
        exact List.inj_on_of_nodup_map hplnd hp hpe hid
      obtain ⟨ex, ey, hcells0, hexy, hex1, hex2, hey1, hey2, hbex0, hbey0⟩ :=
        hinv.placedCells _ hpe
      have hcells : e.cells = [ex, ey] := hcells0
      have hbex : s.board ex.r ex.c = some ⟨ex.value, e.dominoId⟩ := hbex0
      have hbey : s.board ey.r ey.c = some ⟨ey.value, e.dominoId⟩ := hbey0
      rw [hcells]
      have hBdef : ([ex, ey].foldl (fun bd cell => clearCell bd cell.r cell.c) s.board)
          = clearCell (clearCell s.board ex.r ex.c) ey.r ey.c := rfl
      rw [hBdef]
      have hpkeep : ∀ p ∈ s.placed, p.id ≠ e.dominoId → ∀ z : PCell,
          s.board z.r z.c = some ⟨z.value, p.id⟩ →
          clearCell (clearCell s.board ex.r ex.c) ey.r ey.c z.r z.c
            = some ⟨z.value, p.id⟩ := by
        intro p hp hne z hz
        rw [clearTwo_other s.board ?hx ?hy]
        · exact hz
        case hx =>
          rintro ⟨h1, h2⟩
          rw [h1, h2, hbex] at hz
          injection hz with hz2
          exact hne (congrArg BoardCell.dominoId hz2).symm
        case hy =>
          rintro ⟨h1, h2⟩
          rw [h1, h2, hbey] at hz
          injection hz with hz2
          exact hne (congrArg BoardCell.dominoId hz2).symm
      refine ⟨hinv.len8, ?_, ?_, ?_, ?_, ?_, ?_, ?_, ?_⟩
      · -- poolSol
        intro d hd
        dsimp only at hd
        rcases List.mem_append.mp hd with hd1 | hd2
        · exact hinv.poolSol d hd1
        · have : d = ⟨e.dominoId, sol.c0.value, sol.c1.value⟩ := by simpa using hd2
          subst this
          exact ⟨sol, hsol, rfl, rfl⟩
      · -- idsPerm
        dsimp only
        rw [List.map_append, hfilter_placed]
        have hplperm : (s.placed.map Placement.id).Perm
            (e.dominoId :: (s.history.dropLast.map histToPlacement).map Placement.id) := by
          rw [hplaced_decomp, List.map_append]
          exact List.perm_append_comm
        have hstep : ((s.pool.map Domino.id ++ [e.dominoId]) ++
            (s.history.dropLast.map histToPlacement).map Placement.id).Perm
            (s.pool.map Domino.id ++ s.placed.map Placement.id) := by
          rw [List.append_assoc]
          exact (hplperm.symm).append_left _
        exact hstep.trans hinv.idsPerm
      · -- hist
        dsimp only
        exact hfilter_placed
      · -- placedCells
        intro p hp
        dsimp only at hp ⊢
        obtain ⟨hp1, hp2⟩ := List.mem_filter.mp hp
        have hpne : p.id ≠ e.dominoId := by simpa using hp2
        obtain ⟨px, py, hc, ha, h1, h2, h3, h4, hb1, hb2⟩ := hinv.placedCells p hp1
        exact ⟨px, py, hc, ha, h1, h2, h3, h4,
          hpkeep p hp1 hpne px hb1, hpkeep p hp1 hpne py hb2⟩
      · -- boardPlaced
        intro rr cc bc hB
        dsimp only at hB ⊢
        rcases clearTwo_cases s.board ex.r ex.c ey.r ey.c rr cc with hcase | hcase
        · rw [hcase] at hB
          cases hB
        · have hB0 := hB
          rw [hcase] at hB0
          obtain ⟨p, hp, hpid, cell, hcell, hcr, hcc2, hcv⟩ := hinv.boardPlaced rr cc bc hB0
          have hpne : p.id ≠ e.dominoId := by
            intro hid
            have hpeq := hunique p hp hid
            subst hpeq
            have hcell2 : cell ∈ [ex, ey] := hcells0 ▸ hcell
            rcases List.mem_cons.mp hcell2 with hcex | hcell3
            · have h1 : rr = ex.r := by rw [← hcr, hcex]
              have h2 : cc = ex.c := by rw [← hcc2, hcex]
              have hnone : clearCell (clearCell s.board ex.r ex.c) ey.r ey.c rr cc = none := by
                rw [h1, h2]
                exact clearTwo_none_left s.board ex.r ex.c ey.r ey.c
              rw [hnone] at hB
              cases hB
            · have hcey : cell = ey := by simpa using hcell3
              have h1 : rr = ey.r := by rw [← hcr, hcey]
              have h2 : cc = ey.c := by rw [← hcc2, hcey]
              have hnone : clearCell (clearCell s.board ex.r ex.c) ey.r ey.c rr cc = none := by
                rw [h1, h2]
                exact clearTwo_none_right s.board ex.r ex.c ey.r ey.c
              rw [hnone] at hB
              cases hB
          refine ⟨p, List.mem_filter.mpr ⟨hp, by simpa using hpne⟩, hpid,
            cell, hcell, hcr, hcc2, hcv⟩
      · -- inGrid
        intro rr cc hout
        dsimp only
        rcases clearTwo_cases s.board ex.r ex.c ey.r ey.c rr cc with hcase | hcase
        · exact hcase
        · rw [hcase]
          exact hinv.inGrid rr cc hout
      · -- clicksEmpty
        intro q hq
        dsimp only at hq ⊢
        obtain ⟨hq1, hq2, hq3⟩ := hinv.clicksEmpty q hq
        refine ⟨?_, hq2, hq3⟩
        rcases clearTwo_cases s.board ex.r ex.c ey.r ey.c q.1 q.2 with hcase | hcase
        · exact hcase
        · rw [hcase]
          exact hq1
      · -- clickLen
        exact hinv.clickLen

lemma reachable_fullInv {s : GameState} (h : Reachable s) : FullInv s := by
  induction h with
  | start dirs pips tiles pool0 hgen hperm =>
    exact fullInv_initState (generate_good hgen).1 hperm
  | select s id _ ih => exact fullInv_select ih id
  | click s r c _ hr hc ih => exact fullInv_click ih hr hc
  | undoStep s s2 _ hu ih => exact fullInv_undo ih hu
  | restart s dirs pips tiles pool0 _ hgen hperm ih =>
    exact fullInv_initState (generate_good hgen).1 hperm

/-! ## Claim C1 -/

/-- C1 (refuted by the code): after `selectDomino(0)` succeeds on a fresh
puzzle — domino 0 is in the pool and becomes the current selection —
clicking the empty cell (0,0) does NOT append it to the pending click
list; the guard `if(!selectedDominoId)` treats the number 0 as "no
selection", so the click is rejected with the no-domino-selected notice
and the pending list stays empty. -/
theorem clickCell_rejects_domino_zero :
    (onSelectDomino (initState T0 (poolOf T0)) 0).selectedDominoId = some 0 ∧
    (⟨0, 1, 1⟩ : Domino) ∈ (onSelectDomino (initState T0 (poolOf T0)) 0).pool ∧
    (onSelectDomino (initState T0 (poolOf T0)) 0).board 0 0 = none ∧
    onCellClick (onSelectDomino (initState T0 (poolOf T0)) 0) 0 0 =
      { onSelectDomino (initState T0 (poolOf T0)) 0 with message := Msg.selectFirst } ∧
    (onCellClick (onSelectDomino (initState T0 (poolOf T0)) 0) 0 0).selectionClicks = [] := by
  refine ⟨rfl, by decide, rfl, ?_, ?_⟩
  · exact onCellClick_noSelection _ 0 0 (by rfl)
  · rw [onCellClick_noSelection _ 0 0 (by rfl)]
    rfl


/-! ## Claim C7 -/

/-- C7: when the second clicked cell fails the Manhattan adjacency test,
the placement is rejected: the pending clicks are discarded, the current
selection is preserved, and board, pool, placed and history are
unchanged (the whole state is the old one with the pending list cleared
and a retry notice). -/
theorem nonadjacent_rejected (s : GameState) (id : Int) (r1 c1 r2 c2 : Nat)
    (hsel : s.selectedDominoId = some id) (hnz : id ≠ 0)
    (hclicks : s.selectionClicks = [(r1, c1)])
    (hb2 : s.board r2 c2 = none)
    (hadj : areAdjacent (r1, c1) (r2, c2) = false) :
    onCellClick s r2 c2 = { s with selectionClicks := [], message := Msg.notAdjacent } ∧
    (onCellClick s r2 c2).selectedDominoId = some id ∧
    (onCellClick s r2 c2).selectionClicks = [] ∧
    (onCellClick s r2 c2).board = s.board ∧
    (onCellClick s r2 c2).pool = s.pool ∧
    (onCellClick s r2 c2).placed = s.placed ∧
    (onCellClick s r2 c2).history = s.history := by
  have h := onCellClick_notAdjacent s r1 c1 r2 c2
    (by rw [hsel]; exact jsFalsy_some hnz) hclicks hb2 hadj
  rw [h]
  exact ⟨rfl, hsel, rfl, rfl, rfl, rfl, rfl⟩

/-- Witness for C7: on a fresh puzzle, select domino 1, click (0,0), then
click the non-adjacent (0,2). -/
theorem nonadjacent_rejected_witness :
    (onCellClick (onSelectDomino (initState T0 (poolOf T0)) 1) 0 0).selectedDominoId
        = some 1 ∧
    (onCellClick (onSelectDomino (initState T0 (poolOf T0)) 1) 0 0).selectionClicks
        = [(0, 0)] ∧
    onCellClick (onCellClick (onSelectDomino (initState T0 (poolOf T0)) 1) 0 0) 0 2 =
      { onCellClick (onSelectDomino (initState T0 (poolOf T0)) 1) 0 0 with
        selectionClicks := [], message := Msg.notAdjacent } := by
  refine ⟨rfl, rfl, ?_⟩
  exact (nonadjacent_rejected _ 1 0 0 0 2 rfl (by decide) rfl rfl (by decide)).1

/-! ## Claim C6 -/

/-- C6: a successful placement binds the domino's first pip value to the
first-clicked cell and the second to the second-clicked cell, occupies
exactly those two board cells with `{value, dominoId}`, appends the
placement to `placed`, filters the domino out of the pool, pushes the
place-action onto the history, and clears the selection. -/
theorem placement_success (s : GameState) (id : Int) (dom : Domino) (r1 c1 r2 c2 : Nat)
    (hsel : s.selectedDominoId = some id) (hnz : id ≠ 0)
    (hclicks : s.selectionClicks = [])
    (hb1 : s.board r1 c1 = none) (hb2 : s.board r2 c2 = none)
    (hadj : areAdjacent (r1, c1) (r2, c2) = true)
    (hfind : s.pool.find? (fun d => some d.id == s.selectedDominoId) = some dom) :
    (onCellClick (onCellClick s r1 c1) r2 c2).board r1 c1 = some ⟨dom.a, dom.id⟩ ∧
    (onCellClick (onCellClick s r1 c1) r2 c2).board r2 c2 = some ⟨dom.b, dom.id⟩ ∧
    (∀ rr cc, ¬(rr = r1 ∧ cc = c1) → ¬(rr = r2 ∧ cc = c2) →
      (onCellClick (onCellClick s r1 c1) r2 c2).board rr cc = s.board rr cc) ∧
    (onCellClick (onCellClick s r1 c1) r2 c2).placed
      = s.placed ++ [⟨dom.id, [⟨r1, c1, dom.a⟩, ⟨r2, c2, dom.b⟩]⟩] ∧
    (onCellClick (onCellClick s r1 c1) r2 c2).pool
      = s.pool.filter (fun x => x.id != dom.id) ∧
    (onCellClick (onCellClick s r1 c1) r2 c2).history
      = s.history ++ [⟨dom.id, [⟨r1, c1, dom.a⟩, ⟨r2, c2, dom.b⟩]⟩] ∧
    (onCellClick (onCellClick s r1 c1) r2 c2).selectedDominoId = none ∧
    (onCellClick (onCellClick s r1 c1) r2 c2).selectionClicks = [] := by
  have hne12 : (r1, c1) ≠ (r2, c2) := areAdjacent_ne hadj
  have hf : jsFalsy s.selectedDominoId = false := by
    rw [hsel]; exact jsFalsy_some hnz
  have h1 : onCellClick s r1 c1
      = { s with selectionClicks := [(r1, c1)], message := Msg.secondCell } :=
    onCellClick_first s r1 c1 hf hclicks hb1
  rw [h1]
  have h2 := onCellClick_place
    { s with selectionClicks := [(r1, c1)], message := Msg.secondCell }
    dom r1 c1 r2 c2 hf rfl hb2 hadj hfind
  rw [h2]
  refine ⟨?_, ?_, ?_, ?_, ?_, ?_, ?_, ?_⟩
  · rw [checkCompletion_board]
    show writeCell (writeCell s.board r1 c1 ⟨dom.a, dom.id⟩) r2 c2 ⟨dom.b, dom.id⟩ r1 c1
      = some ⟨dom.a, dom.id⟩
    rw [writeCell_ne _ _ _ _ (fun hcc => hne12 (by rw [hcc.1, hcc.2]))]
    exact writeCell_same _ _ _ _
  · rw [checkCompletion_board]
    exact writeCell_same _ _ _ _
  · intro rr cc hx hy
    rw [checkCompletion_board]
    show writeCell (writeCell s.board r1 c1 ⟨dom.a, dom.id⟩) r2 c2 ⟨dom.b, dom.id⟩ rr cc
      = s.board rr cc
    rw [writeCell_ne _ _ _ _ hy, writeCell_ne _ _ _ _ hx]
  · rw [checkCompletion_placed]
  · rw [checkCompletion_pool]
  · rw [checkCompletion_history]
  · rw [checkCompletion_selected]
  · rw [checkCompletion_clicks]

/-- Witness for C6: on a fresh puzzle, select domino 1 (its pips are both
1 here), click (1,1) then (1,2); pip `a` lands on (1,1), pip `b` on
(1,2), both tagged with id 1, and the domino leaves the pool. -/
theorem placement_success_witness :
    (onCellClick (onCellClick (onSelectDomino (initState T0 (poolOf T0)) 1) 1 1) 1 2).board 1 1
        = some ⟨(⟨1, 1, 1⟩ : Domino).a, (⟨1, 1, 1⟩ : Domino).id⟩ ∧
    (onCellClick (onCellClick (onSelectDomino (initState T0 (poolOf T0)) 1) 1 1) 1 2).board 1 2
        = some ⟨(⟨1, 1, 1⟩ : Domino).b, (⟨1, 1, 1⟩ : Domino).id⟩ ∧
    (onCellClick (onCellClick (onSelectDomino (initState T0 (poolOf T0)) 1) 1 1) 1 2).pool
        = (onSelectDomino (initState T0 (poolOf T0)) 1).pool.filter
            (fun x => x.id != (⟨1, 1, 1⟩ : Domino).id) := by
  have h := placement_success (onSelectDomino (initState T0 (poolOf T0)) 1) 1
    ⟨1, 1, 1⟩ 1 1 1 2 rfl (by decide) rfl rfl rfl (by decide) (by decide)
  exact ⟨h.1, h.2.1, h.2.2.2.2.1⟩

/-! ## Claim C3 -/

lemma checkCompletion_full_eq (s : GameState)
    (h : gridList.any (fun p => (s.board p.1 p.2).isNone) = false) :
    checkCompletion s = (if ((List.range 4).filter (fun i => (playerBlockSums s.board).getD i 0 != (computeBlockTargetsFromTiles s.solutionTiles).getD i 0)).isEmpty then { s with message := Msg.solved } else { s with message := Msg.wrongBlocks (((List.range 4).filter (fun i => (playerBlockSums s.board).getD i 0 != (computeBlockTargetsFromTiles s.solutionTiles).getD i 0)).map (· + 1)) }) := by
  unfold checkCompletion
  rw [if_neg (by rw [h]; exact Bool.false_ne_true)]
  rfl

/-- C3: `checkCompletion` is a no-op (the state is returned unchanged)
while any board cell is unoccupied; on a full board it leaves everything
but the message unchanged, reports solved exactly when all four block
sums of the player board equal the corresponding solution targets, and
otherwise reports exactly the 1-indexed positions of the mismatching
blocks and no others. -/
theorem checkCompletion_correct (s : GameState) :
    (gridList.any (fun p => (s.board p.1 p.2).isNone) = true → checkCompletion s = s) ∧
    (gridList.any (fun p => (s.board p.1 p.2).isNone) = false →
      ((checkCompletion s).board = s.board ∧ (checkCompletion s).pool = s.pool ∧
        (checkCompletion s).placed = s.placed ∧
        (checkCompletion s).history = s.history) ∧
      ((checkCompletion s).message = Msg.solved ↔
        ∀ i < 4, (playerBlockSums s.board).getD i 0 =
          (computeBlockTargetsFromTiles s.solutionTiles).getD i 0) ∧
      (∀ L, (checkCompletion s).message = Msg.wrongBlocks L →
        ∀ j, j ∈ L ↔ ∃ i, i < 4 ∧ (playerBlockSums s.board).getD i 0 ≠
          (computeBlockTargetsFromTiles s.solutionTiles).getD i 0 ∧ j = i + 1) ∧
      ((¬ ∀ i < 4, (playerBlockSums s.board).getD i 0 =
          (computeBlockTargetsFromTiles s.solutionTiles).getD i 0) →
        ∃ L, (checkCompletion s).message = Msg.wrongBlocks L)) := by
  constructor
  · intro h
    unfold checkCompletion
    rw [if_pos h]
  · intro h
    have hcc := checkCompletion_full_eq s h
    by_cases hW : ((List.range 4).filter (fun i => (playerBlockSums s.board).getD i 0 != (computeBlockTargetsFromTiles s.solutionTiles).getD i 0)).isEmpty = true
    · have hWnil : (List.range 4).filter (fun i => (playerBlockSums s.board).getD i 0 != (computeBlockTargetsFromTiles s.solutionTiles).getD i 0) = [] :=
        List.isEmpty_iff.mp hW
      have hall : ∀ i < 4, (playerBlockSums s.board).getD i 0 =
          (computeBlockTargetsFromTiles s.solutionTiles).getD i 0 := by
        intro i hi
        have h2 := List.filter_eq_nil_iff.mp hWnil i (List.mem_range.mpr hi)
        simpa using h2
      rw [hcc, if_pos hW]
      refine ⟨⟨rfl, rfl, rfl, rfl⟩, ?_, ?_, ?_⟩
      · exact ⟨fun _ => hall, fun _ => rfl⟩
      · intro L hL
        cases hL
      · intro hnot
        exact absurd hall hnot
    · have hWne : (List.range 4).filter (fun i => (playerBlockSums s.board).getD i 0 != (computeBlockTargetsFromTiles s.solutionTiles).getD i 0) ≠ [] := by
        intro h2
        rw [h2] at hW
        exact hW rfl
      have hnotall : ¬ ∀ i < 4, (playerBlockSums s.board).getD i 0 =
          (computeBlockTargetsFromTiles s.solutionTiles).getD i 0 := by
        intro hall
        apply hWne
        apply List.filter_eq_nil_iff.mpr
        intro i hi
        simp only [bne_iff_ne, ne_eq, decide_eq_true_eq, Bool.not_eq_true]
        exact fun hx => hx (hall i (List.mem_range.mp hi))
      rw [hcc, if_neg hW]
      refine ⟨⟨rfl, rfl, rfl, rfl⟩, ?_, ?_, ?_⟩
      · constructor
        · intro hmsg
          cases hmsg
        · intro hall
          exact absurd hall hnotall
      · intro L hL
        have hLeq : ((List.range 4).filter (fun i => (playerBlockSums s.board).getD i 0 != (computeBlockTargetsFromTiles s.solutionTiles).getD i 0)).map (· + 1) = L := by
          injection hL
        subst hLeq
        intro j
        simp only [List.mem_map, List.mem_filter, List.mem_range, bne_iff_ne, ne_eq,
          decide_eq_true_eq]
        constructor
        · rintro ⟨i, ⟨hi4, hine⟩, rfl⟩
          exact ⟨i, hi4, hine, rfl⟩
        · rintro ⟨i, hi4, hine, rfl⟩
          exact ⟨i, ⟨hi4, hine⟩, rfl⟩
      · intro _
        exact ⟨_, rfl⟩

/-- Witness for C3: on a fresh puzzle the board has empty cells and the
check is a no-op; with the board filled by all-1 values the four sums
match the all-1 solution targets and the check reports solved. -/
theorem checkCompletion_correct_witness :
    checkCompletion (initState T0 (poolOf T0)) = initState T0 (poolOf T0) ∧
    (checkCompletion { initState T0 (poolOf T0) with
      board := fun r c => if r < 4 ∧ c < 4 then some ⟨1, 0⟩ else none }).message
        = Msg.solved := by
  constructor
  · exact (checkCompletion_correct _).1 (by decide)
  · exact ((checkCompletion_correct _).2 (by decide)).2.1.mpr (by decide)

/-! ## Claim C10 -/

/-- C10: selecting an id that is in neither the pool nor the placed list
(e.g. a negative integer) is accepted and becomes the current selection;
the first cell click is appended normally, and the failure only surfaces
on the second click, when the pool lookup misses: a not-found notice is
emitted, the pending clicks are cleared, the selection is retained, and
board, pool, placed and history are unchanged — no exception escapes
(the model is a total function).  Reachability supplies `id ≠ 0`: id 0
always sits in the pool, so an absent id is never the falsy 0. -/
theorem select_unknown_id (s : GameState) (id : Int) (r1 c1 r2 c2 : Nat)
    (hreach : Reachable s)
    (hpool : ∀ d ∈ s.pool, d.id ≠ id)
    (hplaced : ∀ p ∈ s.placed, p.id ≠ id)
    (hb1 : s.board r1 c1 = none) (hb2 : s.board r2 c2 = none)
    (hadj : areAdjacent (r1, c1) (r2, c2) = true) :
    onSelectDomino s id = { s with selectedDominoId := some id, selectionClicks := [], message := Msg.dominoSelected } ∧
    (onCellClick (onSelectDomino s id) r1 c1).selectionClicks = [(r1, c1)] ∧
    (onCellClick (onCellClick (onSelectDomino s id) r1 c1) r2 c2).message = Msg.dominoNotFound ∧
    (onCellClick (onCellClick (onSelectDomino s id) r1 c1) r2 c2).selectedDominoId = some id ∧
    (onCellClick (onCellClick (onSelectDomino s id) r1 c1) r2 c2).selectionClicks = [] ∧
    (onCellClick (onCellClick (onSelectDomino s id) r1 c1) r2 c2).board = s.board ∧
    (onCellClick (onCellClick (onSelectDomino s id) r1 c1) r2 c2).pool = s.pool ∧
    (onCellClick (onCellClick (onSelectDomino s id) r1 c1) r2 c2).placed = s.placed ∧
    (onCellClick (onCellClick (onSelectDomino s id) r1 c1) r2 c2).history = s.history := by
  have hinv := reachable_fullInv hreach
  have hnz : id ≠ 0 := by
    intro h0
    subst h0
    have h1 : (0 : Int) ∈ s.pool.map Domino.id ++ s.placed.map Placement.id :=
      hinv.idsPerm.symm.subset
        (List.mem_map.mpr ⟨0, List.mem_range.mpr (by omega), rfl⟩)
    rcases List.mem_append.mp h1 with h2 | h2
    · obtain ⟨d, hd, hd0⟩ := List.mem_map.mp h2
      exact hpool d hd hd0
    · obtain ⟨p, hp, hp0⟩ := List.mem_map.mp h2
      exact hplaced p hp hp0
  have hselfind : s.placed.find? (fun p => p.id == id) = none :=
    List.find?_eq_none.mpr (fun p hp => by simpa using hplaced p hp)
  have hsel : onSelectDomino s id = { s with selectedDominoId := some id, selectionClicks := [], message := Msg.dominoSelected } := by
    unfold onSelectDomino
    rw [if_neg (by rw [hselfind]; simp)]
  have hf : jsFalsy (some id) = false := jsFalsy_some hnz
  have h1 : onCellClick { s with selectedDominoId := some id, selectionClicks := [], message := Msg.dominoSelected } r1 c1 = { s with selectedDominoId := some id, selectionClicks := [(r1, c1)], message := Msg.secondCell } := by
    have h2 := onCellClick_first { s with selectedDominoId := some id, selectionClicks := [], message := Msg.dominoSelected } r1 c1 hf rfl hb1
    rw [h2]
  have hfind2 : s.pool.find? (fun d => some d.id == some id) = none :=
    List.find?_eq_none.mpr (fun d hd => by simpa using hpool d hd)
  have h2 : onCellClick { s with selectedDominoId := some id, selectionClicks := [(r1, c1)], message := Msg.secondCell } r2 c2 = { s with selectedDominoId := some id, selectionClicks := [], message := Msg.dominoNotFound } := by
    have h3 := onCellClick_notFound { s with selectedDominoId := some id, selectionClicks := [(r1, c1)], message := Msg.secondCell } r1 c1 r2 c2 hf rfl hb2 hadj hfind2
    rw [h3]
  rw [hsel, h1, h2]
  exact ⟨rfl, rfl, rfl, rfl, rfl, rfl, rfl, rfl, rfl⟩

/-- Witness for C10: on a fresh puzzle, select the absent id −1, click
(0,0) then (0,1). -/
theorem select_unknown_id_witness :
    onSelectDomino (initState T0 (poolOf T0)) (-1)
      = { initState T0 (poolOf T0) with selectedDominoId := some (-1), selectionClicks := [], message := Msg.dominoSelected } ∧
    (onCellClick (onCellClick (onSelectDomino (initState T0 (poolOf T0)) (-1)) 0 0) 0 1).message
      = Msg.dominoNotFound := by
  have h := select_unknown_id (initState T0 (poolOf T0)) (-1) 0 0 0 1
    (Reachable.start [] [] T0 (poolOf T0) (by rfl) (List.Perm.refl _))
    (by decide) (by intro p hp; cases hp) rfl rfl (by decide)
  exact ⟨h.1, h.2.2.1⟩

/-! ## Claim C9 -/

/-- C9: every reachable state satisfies the board/pool invariant — cells
of distinct placements never coincide (each cell is occupied by at most
one domino), two occupied cells carrying the same domino id are always
grid-adjacent, and no domino id appears twice across pool and placed. -/
theorem reachable_state_invariant (s : GameState) (h : Reachable s) :
    (∀ p1 ∈ s.placed, ∀ p2 ∈ s.placed, p1 ≠ p2 →
      ∀ q1 ∈ p1.cells, ∀ q2 ∈ p2.cells, (q1.r, q1.c) ≠ (q2.r, q2.c)) ∧
    (∀ r1 c1 r2 c2 bc1 bc2, s.board r1 c1 = some bc1 → s.board r2 c2 = some bc2 →
      bc1.dominoId = bc2.dominoId → (r1, c1) ≠ (r2, c2) →
      areAdjacent (r1, c1) (r2, c2) = true) ∧
    (s.pool.map Domino.id ++ s.placed.map Placement.id).Nodup := by
  have hinv := reachable_fullInv h
  have hplnd : (s.placed.map Placement.id).Nodup :=
    (List.nodup_append.mp (fullInv_ids_nodup hinv)).2.1
  have hcellb : ∀ p ∈ s.placed, ∀ q ∈ p.cells,
      s.board q.r q.c = some ⟨q.value, p.id⟩ := by
    intro p hp q hq
    obtain ⟨x, y, hc, hadj2, hx1, hx2, hy1, hy2, hbx, hby⟩ := hinv.placedCells p hp
    rw [hc] at hq
    rcases List.mem_cons.mp hq with rfl | hq2
    · exact hbx
    · have hqy : q = y := by simpa using hq2
      subst hqy
      exact hby
  refine ⟨?_, ?_, fullInv_ids_nodup hinv⟩
  · intro p1 hp1 p2 hp2 hne q1 hq1 q2 hq2
    intro hceq
    have hb1 := hcellb p1 hp1 q1 hq1
    have hb2 := hcellb p2 hp2 q2 hq2
    have e1 : q1.r = q2.r := congrArg Prod.fst hceq
    have e2 : q1.c = q2.c := congrArg Prod.snd hceq
    rw [e1, e2, hb2] at hb1
    injection hb1 with hb3
    exact hne (List.inj_on_of_nodup_map hplnd hp1 hp2
      (congrArg BoardCell.dominoId hb3).symm)
  · intro r1 c1 r2 c2 bc1 bc2 hb1 hb2 hid hne
    obtain ⟨p1, hp1, hpid1, cell1, hcell1, hcr1, hcc1, hcv1⟩ :=
      hinv.boardPlaced r1 c1 bc1 hb1
    obtain ⟨p2, hp2, hpid2, cell2, hcell2, hcr2, hcc2, hcv2⟩ :=
      hinv.boardPlaced r2 c2 bc2 hb2
    have hpeq : p1 = p2 :=
      List.inj_on_of_nodup_map hplnd hp1 hp2 (by rw [hpid1, hpid2, hid])
    subst hpeq
    obtain ⟨x, y, hc, hxyadj, hx1, hx2, hy1, hy2, hbx, hby⟩ := hinv.placedCells p1 hp1
    rw [hc] at hcell1 hcell2
    rcases List.mem_cons.mp hcell1 with hc1x | hc1y
    · rcases List.mem_cons.mp hcell2 with hc2x | hc2y
      · exfalso
        apply hne
        have e1 : r1 = x.r := by rw [← hcr1, hc1x]
        have e2 : c1 = x.c := by rw [← hcc1, hc1x]
        have e3 : r2 = x.r := by rw [← hcr2, hc2x]
        have e4 : c2 = x.c := by rw [← hcc2, hc2x]
        rw [e1, e2, e3, e4]
      · have hc2y2 : cell2 = y := by simpa using hc2y
        have e1 : r1 = x.r := by rw [← hcr1, hc1x]
        have e2 : c1 = x.c := by rw [← hcc1, hc1x]
        have e3 : r2 = y.r := by rw [← hcr2, hc2y2]
        have e4 : c2 = y.c := by rw [← hcc2, hc2y2]
        rw [e1, e2, e3, e4]
        exact hxyadj
    · have hc1y2 : cell1 = y := by simpa using hc1y
      rcases List.mem_cons.mp hcell2 with hc2x | hc2y
      · have e1 : r1 = y.r := by rw [← hcr1, hc1y2]
        have e2 : c1 = y.c := by rw [← hcc1, hc1y2]
        have e3 : r2 = x.r := by rw [← hcr2, hc2x]
        have e4 : c2 = x.c := by rw [← hcc2, hc2x]
        rw [e1, e2, e3, e4, areAdjacent_symm]
        exact hxyadj
      · exfalso
        apply hne
        have hc2y2 : cell2 = y := by simpa using hc2y
        have e1 : r1 = y.r := by rw [← hcr1, hc1y2]
        have e2 : c1 = y.c := by rw [← hcc1, hc1y2]
        have e3 : r2 = y.r := by rw [← hcr2, hc2y2]
        have e4 : c2 = y.c := by rw [← hcc2, hc2y2]
        rw [e1, e2, e3, e4]

/-- Witness for C9 at the fresh all-horizontal puzzle. -/
theorem reachable_state_invariant_witness :
    ((initState T0 (poolOf T0)).pool.map Domino.id ++
      (initState T0 (poolOf T0)).placed.map Placement.id).Nodup :=
  (reachable_state_invariant (initState T0 (poolOf T0))
    (Reachable.start [] [] T0 (poolOf T0) (by rfl) (List.Perm.refl _))).2.2

/-! ## Claim C4 -/

/-- `undo` on a state whose last history entry is `e`, when `e`'s id
indexes the solution array, pops that entry, clears its cells and
restores the domino from the canonical solution values. -/
lemma undo_concat (t : GameState) (e : HistEntry) (sol : Tile)
    (hlast : t.history.getLast? = some e)
    (hsol : intGet t.solutionTiles e.dominoId = some sol) :
    undo t = some { t with history := t.history.dropLast, board := e.cells.foldl (fun bd cell => clearCell bd cell.r cell.c) t.board, pool := t.pool ++ [⟨e.dominoId, sol.c0.value, sol.c1.value⟩], placed := t.placed.filter (fun p => p.id != e.dominoId), message := Msg.undid } := by
  unfold undo
  rw [hlast]
  dsimp only
  rw [hsol]

/-- The two clicks of a successful placement, summarised as one state
equation (cf. `onCellClick_first`/`onCellClick_place`). -/
lemma place_state_eq (s : GameState) (id : Int) (dom : Domino) (r1 c1 r2 c2 : Nat)
    (hsel : s.selectedDominoId = some id) (hnz : id ≠ 0)
    (hclicks : s.selectionClicks = [])
    (hb1 : s.board r1 c1 = none) (hb2 : s.board r2 c2 = none)
    (hadj : areAdjacent (r1, c1) (r2, c2) = true)
    (hfind : s.pool.find? (fun d => some d.id == s.selectedDominoId) = some dom) :
    onCellClick (onCellClick s r1 c1) r2 c2 = checkCompletion { s with board := writeCell (writeCell s.board r1 c1 ⟨dom.a, dom.id⟩) r2 c2 ⟨dom.b, dom.id⟩, placed := s.placed ++ [⟨dom.id, [⟨r1, c1, dom.a⟩, ⟨r2, c2, dom.b⟩]⟩], pool := s.pool.filter (fun x => x.id != dom.id), history := s.history ++ [⟨dom.id, [⟨r1, c1, dom.a⟩, ⟨r2, c2, dom.b⟩]⟩], selectedDominoId := none, selectionClicks := [], message := Msg.placedCount (s.placed.length + 1) } := by
  have hf : jsFalsy s.selectedDominoId = false := by
    rw [hsel]; exact jsFalsy_some hnz
  rw [onCellClick_first s r1 c1 hf hclicks hb1]
  exact onCellClick_place _ dom r1 c1 r2 c2 hf rfl hb2 hadj hfind

/-- C4: placing a domino and then undoing restores the pre-placement
state: the two board cells return to unoccupied (the whole board map is
restored), the domino reappears in the pool with its original pip
values, sourced from the solution tiling indexed by its id (making the
pool again a permutation of the old one — the Pool is a set), the
placed list and the history are restored exactly, and the placed count
decrements by one. -/
theorem undo_roundtrip (s : GameState) (id : Int) (dom : Domino) (r1 c1 r2 c2 : Nat)
    (hreach : Reachable s)
    (hsel : s.selectedDominoId = some id) (hnz : id ≠ 0)
    (hclicks : s.selectionClicks = [])
    (hb1 : s.board r1 c1 = none) (hb2 : s.board r2 c2 = none)
    (hadj : areAdjacent (r1, c1) (r2, c2) = true)
    (hfind : s.pool.find? (fun d => some d.id == s.selectedDominoId) = some dom) :
    ∃ s3 sol, undo (onCellClick (onCellClick s r1 c1) r2 c2) = some s3 ∧
      intGet s.solutionTiles dom.id = some sol ∧
      dom.a = sol.c0.value ∧ dom.b = sol.c1.value ∧
      Domino.mk dom.id sol.c0.value sol.c1.value ∈ s3.pool ∧
      s3.board = s.board ∧
      s3.pool.Perm s.pool ∧
      s3.placed = s.placed ∧
      s3.history = s.history ∧
      s3.placed.length + 1 = (onCellClick (onCellClick s r1 c1) r2 c2).placed.length := by
  have hinv := reachable_fullInv hreach
  have hdommem : dom ∈ s.pool := List.mem_of_find?_eq_some hfind
  obtain ⟨sol, hsol, hda, hdb⟩ := hinv.poolSol dom hdommem
  have hdom_eq : (⟨dom.id, sol.c0.value, sol.c1.value⟩ : Domino) = dom := by
    rw [← hda, ← hdb]
  have hnodup := fullInv_ids_nodup hinv
  have hpoolnd : (s.pool.map Domino.id).Nodup := (List.nodup_append.mp hnodup).1
  have hdisj := (List.nodup_append.mp hnodup).2.2
  have hid_not_placed : ∀ p ∈ s.placed, p.id ≠ dom.id := by
    intro p hp h2
    exact hdisj (List.mem_map.mpr ⟨dom, hdommem, rfl⟩) (List.mem_map.mpr ⟨p, hp, h2⟩)
  have hplace := place_state_eq s id dom r1 c1 r2 c2 hsel hnz hclicks hb1 hb2 hadj hfind
  have hs2hist : (onCellClick (onCellClick s r1 c1) r2 c2).history
      = s.history ++ [⟨dom.id, [⟨r1, c1, dom.a⟩, ⟨r2, c2, dom.b⟩]⟩] := by
    rw [hplace, checkCompletion_history]
  have hs2placed : (onCellClick (onCellClick s r1 c1) r2 c2).placed
      = s.placed ++ [⟨dom.id, [⟨r1, c1, dom.a⟩, ⟨r2, c2, dom.b⟩]⟩] := by
    rw [hplace, checkCompletion_placed]
  have hs2pool : (onCellClick (onCellClick s r1 c1) r2 c2).pool
      = s.pool.filter (fun x => x.id != dom.id) := by
    rw [hplace, checkCompletion_pool]
  have hs2board : (onCellClick (onCellClick s r1 c1) r2 c2).board
      = writeCell (writeCell s.board r1 c1 ⟨dom.a, dom.id⟩) r2 c2 ⟨dom.b, dom.id⟩ := by
    rw [hplace, checkCompletion_board]
  have hs2sol : (onCellClick (onCellClick s r1 c1) r2 c2).solutionTiles
      = s.solutionTiles := by
    rw [hplace, checkCompletion_solution]
  have hundo := undo_concat (onCellClick (onCellClick s r1 c1) r2 c2)
    ⟨dom.id, [⟨r1, c1, dom.a⟩, ⟨r2, c2, dom.b⟩]⟩ sol
    (by rw [hs2hist]; exact List.getLast?_concat _)
    (by rw [hs2sol]; exact hsol)
  refine ⟨_, sol, hundo, hsol, hda, hdb, ?_, ?_, ?_, ?_, ?_, ?_⟩
  · -- restored domino in the pool
    show (⟨dom.id, sol.c0.value, sol.c1.value⟩ : Domino) ∈
      (onCellClick (onCellClick s r1 c1) r2 c2).pool ++
        [⟨dom.id, sol.c0.value, sol.c1.value⟩]
    exact List.mem_append_right _ (by simp)
  · -- board restored
    show ([⟨r1, c1, dom.a⟩, ⟨r2, c2, dom.b⟩] : List PCell).foldl
        (fun bd cell => clearCell bd cell.r cell.c)
        (onCellClick (onCellClick s r1 c1) r2 c2).board = s.board
    rw [hs2board]
    funext rr cc
    show clearCell (clearCell (writeCell (writeCell s.board r1 c1 ⟨dom.a, dom.id⟩)
      r2 c2 ⟨dom.b, dom.id⟩) r1 c1) r2 c2 rr cc = s.board rr cc
    by_cases h2 : rr = r2 ∧ cc = c2
    · have hnone : clearCell (clearCell (writeCell (writeCell s.board r1 c1
          ⟨dom.a, dom.id⟩) r2 c2 ⟨dom.b, dom.id⟩) r1 c1) r2 c2 rr cc = none := by
        unfold clearCell
        rw [if_pos h2]
      rw [hnone, h2.1, h2.2, hb2]
    · by_cases h1 : rr = r1 ∧ cc = c1
      · have hnone : clearCell (clearCell (writeCell (writeCell s.board r1 c1
            ⟨dom.a, dom.id⟩) r2 c2 ⟨dom.b, dom.id⟩) r1 c1) r2 c2 rr cc = none := by
          unfold clearCell
          rw [if_neg h2, if_pos h1]
        rw [hnone, h1.1, h1.2, hb1]
      · rw [clearTwo_other _ h1 h2, writeCell_ne _ _ _ _ h2, writeCell_ne _ _ _ _ h1]
  · -- pool restored up to permutation
    show ((onCellClick (onCellClick s r1 c1) r2 c2).pool ++
      ([⟨dom.id, sol.c0.value, sol.c1.value⟩] : List Domino)).Perm s.pool
    rw [hs2pool, hdom_eq]
    have hperm1 : s.pool.Perm (dom :: s.pool.filter (fun y => y.id != dom.id)) :=
      filter_key_perm Domino.id s.pool dom hpoolnd hdommem
    exact (List.perm_append_comm).trans hperm1.symm
  · -- placed restored
    show ((onCellClick (onCellClick s r1 c1) r2 c2).placed).filter
      (fun p => p.id != dom.id) = s.placed
    rw [hs2placed, List.filter_append]
    have hA : s.placed.filter (fun p => p.id != dom.id) = s.placed := by
      apply List.filter_eq_self.mpr
      intro p hp
      simpa using hid_not_placed p hp
    have hB : ([⟨dom.id, [⟨r1, c1, dom.a⟩, ⟨r2, c2, dom.b⟩]⟩] : List Placement).filter
        (fun p => p.id != dom.id) = [] := by
      simp
    rw [hA, hB, List.append_nil]
  · -- history restored
    show ((onCellClick (onCellClick s r1 c1) r2 c2).history).dropLast = s.history
    rw [hs2hist]
    exact List.dropLast_concat
  · -- placed count decremented
    show ((onCellClick (onCellClick s r1 c1) r2 c2).placed.filter
      (fun p => p.id != dom.id)).length + 1
        = (onCellClick (onCellClick s r1 c1) r2 c2).placed.length
    rw [hs2placed, List.filter_append]
    have hA : s.placed.filter (fun p => p.id != dom.id) = s.placed := by
      apply List.filter_eq_self.mpr
      intro p hp
      simpa using hid_not_placed p hp
    have hB : ([⟨dom.id, [⟨r1, c1, dom.a⟩, ⟨r2, c2, dom.b⟩]⟩] : List Placement).filter
        (fun p => p.id != dom.id) = [] := by
      simp
    rw [hA, hB, List.append_nil, List.length_append]
    rfl

/-- Witness for C4: place domino 1 at (0,0)-(0,1) on a fresh puzzle and
undo. -/
theorem undo_roundtrip_witness :
    ∃ s3 sol,
      undo (onCellClick (onCellClick (onSelectDomino (initState T0 (poolOf T0)) 1) 0 0) 0 1)
        = some s3 ∧
      intGet (onSelectDomino (initState T0 (poolOf T0)) 1).solutionTiles
        (⟨1, 1, 1⟩ : Domino).id = some sol ∧
      (⟨1, 1, 1⟩ : Domino).a = sol.c0.value ∧ (⟨1, 1, 1⟩ : Domino).b = sol.c1.value ∧
      Domino.mk (⟨1, 1, 1⟩ : Domino).id sol.c0.value sol.c1.value ∈ s3.pool ∧
      s3.board = (onSelectDomino (initState T0 (poolOf T0)) 1).board ∧
      s3.pool.Perm (onSelectDomino (initState T0 (poolOf T0)) 1).pool ∧
      s3.placed = (onSelectDomino (initState T0 (poolOf T0)) 1).placed ∧
      s3.history = (onSelectDomino (initState T0 (poolOf T0)) 1).history ∧
      s3.placed.length + 1 =
        (onCellClick (onCellClick (onSelectDomino (initState T0 (poolOf T0)) 1) 0 0) 0 1).placed.length :=
  undo_roundtrip (onSelectDomino (initState T0 (poolOf T0)) 1) 1 ⟨1, 1, 1⟩ 0 0 0 1
    (Reachable.select _ 1 (Reachable.start [] [] T0 (poolOf T0) (by rfl) (List.Perm.refl _)))
    rfl (by decide) rfl rfl rfl (by decide) (by decide)
